import Mathlib

/-!
# A verification development for the oat-scheme interpreter

This file gives a shallow embedding, in Lean 4, of the oat-scheme Scheme
interpreter (a small Rust program: `src/value.rs`, `src/environment.rs`,
`src/eval.rs`, `src/builtin.rs`, `src/parse.rs`, `src/error.rs`,
`src/bin/oats.rs`), together with theorems about the embedded definitions.

Modelling conventions:

* Rust `f64` is modelled by `F64` below: exact rationals plus the IEEE special
  values (infinities, NaN, the negative zero).  Arithmetic on finite values is
  exact, i.e. the rounding and overflow of `f64` results are not modelled; no
  theorem in this file depends on rounding or overflow of a finite result.
* `Rc<Value>` / `Gc<Value>` sharing is invisible to the program's semantics
  (values are immutable), so values are modelled as a plain inductive tree.
* `HashMap<String, Rc<Value>>` scope frames are modelled as association lists
  where insertion conses a new entry in front and lookup takes the first
  match; this realises exactly the observable insert-overwrites semantics of
  the hash map.
* Panics (an `unwrap` on an empty frame stack, a byte-slice index out of
  range, the out-of-bounds body index of a zero-length closure body) are
  modelled as an explicit `Outcome.panic k` result carrying the kind of panic.
* Evaluation is given a `fuel` argument (the Rust evaluator can diverge);
  `Outcome.timeout` reports fuel exhaustion and is never identified with any
  behaviour of the program.
-/

/-! ## The number model (Rust `f64`) -/

/-- An exact fraction `num / den`.  Every `Q` the development constructs is
normalized (`den > 0`, `gcd |num| den = 1`), via the smart constructor
`Q.mkRat`; `Q` is a plain structure (no proof fields), so that all arithmetic
reduces inside the kernel. -/
structure Q where
  num : Int
  den : Nat
  deriving DecidableEq

namespace Q

/-- Build a normalized fraction.  A zero denominator cannot arise from the
program (the interpreter tests divisors for zero first); it is mapped to the
junk value `0/0` for totality. -/
def mkRat (n : Int) (d : Nat) : Q :=
  if d = 0 then ⟨0, 0⟩
  else
    let g := Nat.gcd n.natAbs d
    ⟨n / (g : Int), d / g⟩

/-- The fraction `n / 1`. -/
def ofInt (n : Int) : Q := ⟨n, 1⟩

/-- Semantic test `q = 0`. -/
def isZero (q : Q) : Bool := q.num == 0

/-- Semantic test `q < 0`. -/
def isNeg (q : Q) : Bool := decide (q.num < 0)

/-- Semantic equality (cross multiplication; agrees with `=` on normalized
values). -/
def qeq (a b : Q) : Bool := a.num * (b.den : Int) == b.num * (a.den : Int)

def qadd (a b : Q) : Q :=
  mkRat (a.num * (b.den : Int) + b.num * (a.den : Int)) (a.den * b.den)

def qneg (a : Q) : Q := ⟨-a.num, a.den⟩

def qmul (a b : Q) : Q := mkRat (a.num * b.num) (a.den * b.den)

/-- Exact division (callers ensure `b ≠ 0`). -/
def qdiv (a b : Q) : Q :=
  mkRat (a.num * (b.den : Int) * b.num.sign) (a.den * b.num.natAbs)

def qabs (a : Q) : Q := ⟨(a.num.natAbs : Int), a.den⟩

/-- `⌊q⌋` truncated toward zero for nonnegative `q` (what `as usize` needs). -/
def truncNonneg (a : Q) : Nat := a.num.toNat / a.den

end Q

/-- Model of Rust `f64`: exact fractions plus IEEE special values.
`fin q` is an ordinary finite value (`fin 0` is `+0.0`), `negZero` is `-0.0`,
`inf b` is `+∞` for `b = false` and `-∞` for `b = true`.  Finite arithmetic is
exact (no rounding, no overflow to infinity). -/
inductive F64 where
  | nan
  | inf (neg : Bool)
  | negZero
  | fin (q : Q)
  deriving DecidableEq

namespace F64

/-- The IEEE sign bit (sign of NaN irrelevant here, Rust never consults it). -/
def isNeg : F64 → Bool
  | nan => false
  | inf b => b
  | negZero => true
  | fin q => q.isNeg

/-- IEEE negation (Rust unary `-` on `f64`). -/
def neg : F64 → F64
  | nan => nan
  | inf b => inf (!b)
  | negZero => fin (.ofInt 0)
  | fin q => if q.isZero then negZero else fin q.qneg

/-- Zero with the given sign bit. -/
def zeroWithSign (b : Bool) : F64 := if b then negZero else fin (.ofInt 0)

/-- IEEE addition (exact on finite operands).  `-0.0 + -0.0 = -0.0`,
`-0.0 + 0.0 = 0.0`, and an exact finite sum of zero is `+0.0`
(round-to-nearest ties-to-even gives `+0` for a sum that cancels). -/
def add : F64 → F64 → F64
  | nan, _ => nan
  | _, nan => nan
  | inf b, inf c => if b = c then inf b else nan
  | inf b, negZero => inf b
  | inf b, fin _ => inf b
  | negZero, inf c => inf c
  | fin _, inf c => inf c
  | negZero, negZero => negZero
  | negZero, fin q => fin q
  | fin q, negZero => fin q
  | fin a, fin b => fin (a.qadd b)

/-- IEEE subtraction: `a - b = a + (-b)`. -/
def sub (a b : F64) : F64 := add a (neg b)

/-- IEEE multiplication (exact on finite operands). -/
def mul : F64 → F64 → F64
  | nan, _ => nan
  | _, nan => nan
  | inf b, inf c => inf (b != c)
  | inf _, negZero => nan
  | inf b, fin q => if q.isZero then nan else inf (b != q.isNeg)
  | negZero, inf _ => nan
  | fin q, inf c => if q.isZero then nan else inf (c != q.isNeg)
  | negZero, negZero => fin (.ofInt 0)
  | negZero, fin q => zeroWithSign (!q.isNeg)
  | fin q, negZero => zeroWithSign (!q.isNeg)
  | fin a, fin b =>
    if a.isZero || b.isZero then zeroWithSign (a.isNeg != b.isNeg)
    else fin (a.qmul b)

/-- IEEE division (exact on finite operands); a nonzero finite value divided
by a zero gives a signed infinity, `0/0` and `∞/∞` give NaN. -/
def div : F64 → F64 → F64
  | nan, _ => nan
  | _, nan => nan
  | inf _, inf _ => nan
  | inf b, negZero => inf (!b)
  | inf b, fin q => inf (b != q.isNeg)
  | negZero, inf c => zeroWithSign (!c)
  | fin q, inf c => zeroWithSign (q.isNeg != c)
  | negZero, negZero => nan
  | negZero, fin q => if q.isZero then nan else zeroWithSign (!q.isNeg)
  | fin a, negZero => if a.isZero then nan else inf (!a.isNeg)
  | fin a, fin b =>
    if b.isZero then (if a.isZero then nan else inf a.isNeg)
    else if a.isZero then zeroWithSign b.isNeg
    else fin (a.qdiv b)

/-- Rust `f64::abs`. -/
def abs : F64 → F64
  | nan => nan
  | inf _ => inf false
  | negZero => fin (.ofInt 0)
  | fin q => fin q.qabs

/-- The IEEE `==` comparison (Rust `PartialEq` on `f64`): NaN is equal to
nothing, `-0.0 == 0.0`. -/
def ieeeEq : F64 → F64 → Bool
  | nan, _ => false
  | _, nan => false
  | inf b, inf c => b == c
  | inf _, _ => false
  | _, inf _ => false
  | negZero, negZero => true
  | negZero, fin q => q.isZero
  | fin q, negZero => q.isZero
  | fin a, fin b => a.qeq b

/-- Rust's saturating cast `as usize` from `f64`: NaN and negative values go
to `0`, values beyond `usize::MAX` saturate, the fractional part truncates. -/
def toUsize : F64 → Nat
  | nan => 0
  | inf b => if b then 0 else 2 ^ 64 - 1
  | negZero => 0
  | fin q => if q.isNeg then 0 else min q.truncNonneg (2 ^ 64 - 1)

end F64

/-! ## The value model (`src/value.rs`)

The Rust `Value` enum, with `Procedure::Primitive(fn)` flattened into the
constructor `primitiveProcedure` carrying the primitive's registry name (the
function pointer is determined by the name, see `applyPrimitive` below) and
`Procedure::Compound { parameters, body, captures }` flattened into the
constructor `procedure`. -/

inductive Value where
  | void
  | symbol (name : String)
  | number (x : F64)
  | string (s : String)
  | character (c : Char)
  | boolean (b : Bool)
  | emptyList
  | pair (car : Value) (cdr : Value)
  | primitiveProcedure (name : String)
  | procedure (parameters : List String) (body : List Value)
      (captures : List (String × Value))

namespace Value

/-- Rust `Value::to_bool`: `#f` is the only falsy value. -/
def toBool : Value → Bool
  | boolean false => false
  | _ => true

end Value

/-- `impl FromIterator<Gc<Value>> for Value` (src/value.rs): fold a sequence
into a proper list. -/
def listToValue : List Value → Value
  | [] => .emptyList
  | v :: rest => .pair v (listToValue rest)

/-- The number of items the Rust list iterator (`impl Iterator for &Value`)
yields on this value: one per leading pair, plus one final error item when the
chain ends in anything other than the empty list. -/
def valueCount : Value → Nat
  | .emptyList => 0
  | .pair _ cdr => valueCount cdr + 1
  | _ => 1

/-! ## Errors (`src/error.rs`) -/

/-- The Rust `Error` enum.  `parseError` elides the span/expected payload of
`Error::ParseError`, which no theorem below inspects. -/
inductive EvalError where
  | undefinedVariable (name : String)
  | emptyApplication
  | emptyProcedure
  | expectedProcedure (v : Value)
  | expectedValue (v : Value)
  | incorrectArity (expected received : Nat)
  | typeMismatch (expected : String) (v : Value)
  | expectedList (v : Value)
  | indexOutOfBounds (idx : Nat)
  | unexpectedEndOfInput
  | parseError

/-! ## The environment (`src/environment.rs`) -/

/-- One scope: models `HashMap<String, Rc<Value>>`.  Insertion conses in
front; lookup takes the first (most recent) entry, which realises the hash
map's insert-overwrites semantics observably. -/
abbrev Frame := List (String × Value)

/-- Lookup in one frame (`HashMap::get`). -/
def frameGet : Frame → String → Option Value
  | [], _ => none
  | (m, v) :: rest, n => if m = n then some v else frameGet rest n

/-- The Rust `Environment`.  The Rust `Vec` keeps the innermost scope last;
here `frames` keeps the innermost scope FIRST (`frames = [inner, ..., bottom]`),
so Rust's `truncate d` keeps the last `d` entries of this list. -/
structure Environment where
  frames : List Frame

namespace Environment

/-- `Environment::depth`. -/
def depth (env : Environment) : Nat := env.frames.length

/-- `Environment::get`: search scopes innermost to outermost; `none` models
`Err(Error::UndefinedVariable)`. -/
def get (env : Environment) (n : String) : Option Value :=
  go env.frames
where
  go : List Frame → Option Value
    | [] => none
    | f :: rest => match frameGet f n with
      | some v => some v
      | none => go rest

/-- `Environment::bind`: insert into the innermost scope only.  `none` models
the `self.frames.last_mut().unwrap()` panic on an empty frame stack. -/
def bind (env : Environment) (n : String) (v : Value) : Option Environment :=
  match env.frames with
  | [] => none
  | f :: rest => some ⟨((n, v) :: f) :: rest⟩

/-- `Environment::new_scope`. -/
def newScope (env : Environment) : Environment := ⟨[] :: env.frames⟩

/-- `Environment::restore(depth)` = `Vec::truncate(depth)`: keep (at most) the
outermost `d` scopes. -/
def restore (env : Environment) (d : Nat) : Environment :=
  ⟨env.frames.drop (env.frames.length - d)⟩

end Environment

/-- The names of the registered primitives (`BUILTINS` in src/builtin.rs). -/
def builtinNames : List String :=
  ["display", "not", "eq?", "cons", "car", "cdr", "list", "abs",
   "+", "-", "*", "/",
   "string-length", "string-ref", "substring", "string-append"]

/-- `Environment::default()`: one bottom scope pre-populated from the
primitive registry. -/
def defaultEnv : Environment :=
  ⟨[builtinNames.map fun n => (n, Value.primitiveProcedure n)]⟩

/-! ## Structural equality (`fn eq` in src/builtin.rs)

The Rust code compares two pairs by zipping their two list iterators and
requiring every aligned item pair to agree (`Ok` with equal elements, or both
`Err`).  `Iterator::zip` stops at the first exhausted side, and the improper
tail behind an `Err` item is never inspected.  `eqValue`/`eqTail` implement
exactly that zip: `eqTail x y` compares the two tails as the zipped iterators
would, with `eqTail` returning `true` as soon as either side's iterator is
done.  The equivalence with the literal zip-of-item-lists formulation is
proved in `eqValue_pair_zip` below. -/

mutual

/-- Rust `fn eq(lhs: &Value, rhs: &Value) -> bool`. -/
def eqValue : Value → Value → Bool
  | .symbol l, .symbol r => l == r
  | .number l, .number r => F64.ieeeEq l r
  | .string l, .string r => l == r
  | .character l, .character r => l == r
  | .boolean l, .boolean r => l == r
  | .emptyList, .emptyList => true
  | .pair a b, .pair c d => eqValue a c && eqTail b d
  | _, _ => false

/-- The zip of the two tails' iterators: an exhausted side ends the zip
(result `true`), `Ok` items recurse into `eqValue`, and `Err` items (improper
tails) match only `Err` items. -/
def eqTail : Value → Value → Bool
  | .emptyList, _ => true
  | _, .emptyList => true
  | .pair a b, .pair c d => eqValue a c && eqTail b d
  | .pair _ _, _ => false
  | _, .pair _ _ => false
  | _, _ => true

end

/-- The item sequence of the Rust list iterator (`impl Iterator for &Value`):
`some v` for each `Ok(v)` element, one trailing `none` for the `Err` item an
improper tail produces. -/
def valueItems : Value → List (Option Value)
  | .emptyList => []
  | .pair a b => some a :: valueItems b
  | _ => [none]

/-! ## Destructuring helpers (the `unscheme!` macro in src/lib.rs)

Each helper mirrors one expansion of the `unscheme!` macro; the error kinds
and payloads follow the macro text exactly. -/

/-- `unscheme!(v => Symbol)`. -/
def unsSymbol : Value → Except EvalError String
  | .symbol s => .ok s
  | v => .error (.typeMismatch "symbol" v)

/-- `unscheme!(v => Number)`. -/
def unsNumber : Value → Except EvalError F64
  | .number x => .ok x
  | v => .error (.typeMismatch "number" v)

/-- `unscheme!(v => String)`. -/
def unsString : Value → Except EvalError String
  | .string s => .ok s
  | v => .error (.typeMismatch "string" v)

/-- `unscheme!(v => Boolean)`. -/
def unsBoolean : Value → Except EvalError Bool
  | .boolean b => .ok b
  | v => .error (.typeMismatch "boolean" v)

/-- `unscheme!(v => Pair)`. -/
def unsPair : Value → Except EvalError (Value × Value)
  | .pair a b => .ok (a, b)
  | v => .error (.typeMismatch "pair" v)

/-- `unscheme!(v => [any])`: exactly one element, returned unevaluated.  A
non-pair gives `TypeMismatch("pair")`; a nonempty tail gives
`ExpectedList(tail)`. -/
def uns1any : Value → Except EvalError Value
  | .pair car cdr =>
    match cdr with
    | .emptyList => .ok car
    | c => .error (.expectedList c)
  | v => .error (.typeMismatch "pair" v)

/-- The head step of the multi-element forms `unscheme!(v => [x, rest...])`:
`Pair` destructuring with the error mapped to `ExpectedList(v)`. -/
def unsConsAny : Value → Except EvalError (Value × Value)
  | .pair a b => .ok (a, b)
  | v => .error (.expectedList v)

/-- `unscheme!(args => [any, any, any])` as used by `if`. -/
def uns3any (args : Value) : Except EvalError (Value × Value × Value) :=
  match args with
  | .pair p rest =>
    match rest with
    | .pair c rest2 =>
      match rest2 with
      | .pair a tail =>
        match tail with
        | .emptyList => .ok (p, c, a)
        | t => .error (.expectedList t)
      | v => .error (.typeMismatch "pair" v)
    | v => .error (.expectedList v)
  | v => .error (.expectedList v)

/-! ## Closure construction (`make_lambda` / `get_captures`, src/eval.rs) -/

/-- `fn get_captures` (src/eval.rs 173–193): walk the raw expression tree;
every symbol occurrence outside `parameters` that resolves in `env` is pushed
onto the capture list. -/
def getCaptures (v : Value) (parameters : List String) (env : Environment)
    (captures : List (String × Value)) : List (String × Value) :=
  match v with
  | .symbol s =>
    if parameters.contains s then captures
    else
      match env.get s with
      | some x => captures ++ [(s, x)]
      | none => captures
  | .pair car cdr =>
    getCaptures cdr parameters env (getCaptures car parameters env captures)
  | _ => captures

/-- Collecting the parameter list: `parameters.map(|p| p.and_then(unscheme
Symbol)).collect()`.  The improper-tail error item of the Rust iterator
carries `EmptyList` (the iterator overwrites its state before cloning it). -/
def collectParams : Value → Except EvalError (List String)
  | .emptyList => .ok []
  | .pair a rest =>
    match unsSymbol a with
    | .error e => .error e
    | .ok s => (collectParams rest).map (s :: ·)
  | _ => .error (.expectedList .emptyList)

/-- Collecting the body: `body.collect::<Result<Vec<_>>>()`. -/
def collectList : Value → Except EvalError (List Value)
  | .emptyList => .ok []
  | .pair a rest => (collectList rest).map (a :: ·)
  | _ => .error (.expectedList .emptyList)

/-- `fn make_lambda` (src/eval.rs 150–171). -/
def makeLambda (parameters body : Value) (env : Environment) :
    Except EvalError Value := do
  let params ← collectParams parameters
  let bodyL ← collectList body
  if bodyL.isEmpty then .error .emptyProcedure
  else
    .ok (.procedure params bodyL
      (bodyL.foldl (fun acc e => getCaptures e params env acc) []))

/-- `fn eval_lambda` (src/eval.rs 141–144). -/
def evalLambda (args : Value) (env : Environment) : Except EvalError Value :=
  match args with
  | .pair parameters body => makeLambda parameters body env
  | v => .error (.typeMismatch "pair" v)

/-! ## Evaluation outcomes -/

/-- The kind of a Rust panic the interpreter can hit. -/
inductive PanicKind where
  | emptyFrames -- `Environment::bind`: `last_mut().unwrap()` on an empty stack
  | stringSlice -- `substring`: byte-range slice out of range or off a boundary
  | emptyBody -- indexing `body[body.len() - 1]` of an empty closure body
  | unknownPrimitive -- no Rust counterpart: a name outside the registry
  deriving DecidableEq

/-- The result of running a fallible, environment-threading computation:
`Ok`/`Err` holding the environment as left at that moment, a panic, or fuel
exhaustion. -/
inductive Res (α : Type) where
  | ok (a : α) (env : Environment)
  | err (e : EvalError) (env : Environment)
  | panic (k : PanicKind)
  | timeout

/-- The result of one `eval` call. -/
abbrev Outcome := Res Value

/-- `if env.depth() == initial_stack_depth { env.new_scope(); }`
(src/eval.rs 78–80): push a frame only when still at the entry depth. -/
def pushIfEntry (d : Nat) (env : Environment) : Environment :=
  if env.depth = d then env.newScope else env

/-- Bind a list of (name, value) pairs in order (the two `for` loops binding
parameters and captures, src/eval.rs 82–88); `none` models the panic of a
`bind` on an empty frame stack. -/
def bindAll : List (String × Value) → Environment → Option Environment
  | [], env => some env
  | (n, v) :: rest, env =>
    match env.bind n v with
    | some env' => bindAll rest env'
    | none => none

/-! ## Rust byte-range string slicing (used by the `substring` primitive)

`substring` slices with `&string[start..end]` where `start`/`end` are cast
`f64` values: byte indices, which must lie on UTF-8 character boundaries and
inside the string, else the slice PANICS. -/

/-- Take the characters spanning exactly `n` UTF-8 bytes; `none` when `n`
overruns the string or falls inside a character. -/
def takeBytes (s : List Char) (n : Nat) : Option (List Char) :=
  match n, s with
  | 0, _ => some []
  | _ + 1, [] => none
  | n + 1, c :: rest =>
    if c.utf8Size ≤ n + 1 then (takeBytes rest (n + 1 - c.utf8Size)).map (c :: ·)
    else none

/-- Drop the characters spanning exactly `n` UTF-8 bytes. -/
def dropBytes (s : List Char) (n : Nat) : Option (List Char) :=
  match n, s with
  | 0, s => some s
  | _ + 1, [] => none
  | n + 1, c :: rest =>
    if c.utf8Size ≤ n + 1 then dropBytes rest (n + 1 - c.utf8Size)
    else none

/-- Rust `&s[start..stop]` on a `str`: `none` models the slice panic. -/
def rustByteSlice (s : List Char) (start stop : Nat) : Option (List Char) :=
  if start ≤ stop then (dropBytes s start).bind (takeBytes · (stop - start))
  else none

/-! ## The evaluator (src/eval.rs) and the primitives (src/builtin.rs)

`eval` is the Rust `fn eval`; its `'tail_call: loop` is `evalLoop`, one call
per loop iteration, with the initial stack depth `d` fixed for the whole
invocation.  Besides the Rust result, `evalLoop` returns ghost data for the
theorems below: the list of `env.depth()` values observed at the start of
each of its iterations (the Rust code computes only the first component).

As in the Rust code, `env.restore(initial_stack_depth)` runs only on the
success path: an `Err` propagated by `?` or an explicit `return Err(..)`
leaves `eval` without restoring. -/

mutual

/-- Rust `fn eval` (src/eval.rs 22–107). -/
def eval (fuel : Nat) (v : Value) (env : Environment) : Outcome :=
  match fuel with
  | 0 => .timeout
  | fuel + 1 =>
    match (evalLoop fuel env.depth v env).1 with
    | .ok r env' => .ok r (env'.restore env.depth)
    | o => o
termination_by structural fuel

/-- Rust `Value::eval_to_value` (src/eval.rs 13–19). -/
def evalToValue (fuel : Nat) (v : Value) (env : Environment) : Outcome :=
  match fuel with
  | 0 => .timeout
  | fuel + 1 =>
    match eval fuel v env with
    | .ok r env' =>
      match r with
      | .void => .err (.expectedValue v) env'
      | r => .ok r env'
    | o => o
termination_by structural fuel

/-- One iteration of the `'tail_call: loop` (src/eval.rs 26–102), with the
entry depth `d`.  The second component lists the `env.depth()` at the start
of this and every later iteration of the same loop. -/
def evalLoop (fuel : Nat) (d : Nat) (v : Value) (env : Environment) :
    Outcome × List Nat :=
  match fuel with
  | 0 => (.timeout, [])
  | fuel + 1 =>
    match v with
    | .symbol name =>
      (match env.get name with
       | some x => .ok x env
       | none => .err (.undefinedVariable name) env, [env.depth])
    | .emptyList => (.err .emptyApplication env, [env.depth])
    | .pair name args =>
      match name with
      | .symbol "define" => (evalDefine fuel args env, [env.depth])
      | .symbol "and" => (evalAnd fuel args env, [env.depth])
      | .symbol "or" => (evalOr fuel args env, [env.depth])
      | .symbol "lambda" =>
        (match evalLambda args env with
         | .ok p => .ok p env
         | .error e => .err e env, [env.depth])
      | .symbol "quote" =>
        (match uns1any args with
         | .ok x => .ok x env
         | .error e => .err e env, [env.depth])
      | .symbol "if" =>
        match uns3any args with
        | .error e => (.err e env, [env.depth])
        | .ok (p, c, a) =>
          match evalToValue fuel p env with
          | .ok pv env' =>
            let r := evalLoop fuel d (if pv.toBool then c else a) env'
            (r.1, env.depth :: r.2)
          | .err e env' => (.err e env', [env.depth])
          | .panic k => (.panic k, [env.depth])
          | .timeout => (.timeout, [env.depth])
      | _ =>
        let r := evalApplication fuel d name args env
        (r.1, env.depth :: r.2)
    | _ => (.ok v env, [env.depth])
termination_by structural fuel

/-- The application tail of a loop iteration (src/eval.rs 57–101): evaluate
the head to a procedure, then dispatch on primitive vs. compound.  The trace
lists the iteration-start depths of the tail-call iterations it leads to. -/
def evalApplication (fuel : Nat) (d : Nat) (name args : Value)
    (env : Environment) : Outcome × List Nat :=
  match fuel with
  | 0 => (.timeout, [])
  | fuel + 1 =>
    match evalToValue fuel name env with
    | .ok p env1 =>
      match p with
      | .primitiveProcedure pn => (applyPrimitive fuel pn args env1, [])
      | .procedure params body caps =>
        match evalArgs fuel args env1 with
        | .ok vs env2 =>
          if vs.length = params.length then
            let env3 := pushIfEntry d env2
            match bindAll (params.zip vs) env3 with
            | some env4 =>
              match bindAll caps env4 with
              | some env5 =>
                match body.getLast? with
                | some last =>
                  match evalSeq fuel body.dropLast env5 with
                  | .ok _ env6 => evalLoop fuel d last env6
                  | .err e env6 => (.err e env6, [])
                  | .panic k => (.panic k, [])
                  | .timeout => (.timeout, [])
                | none => (.panic .emptyBody, [])
              | none => (.panic .emptyFrames, [])
            | none => (.panic .emptyFrames, [])
          else (.err (.incorrectArity params.length vs.length) env2, [])
        | .err e env2 => (.err e env2, [])
        | .panic k => (.panic k, [])
        | .timeout => (.timeout, [])
      | other => (.err (.expectedProcedure other) env1, [])
    | .err e env1 => (.err e env1, [])
    | .panic k => (.panic k, [])
    | .timeout => (.timeout, [])
termination_by structural fuel

/-- Rust `fn eval_define` (src/eval.rs 109–121). -/
def evalDefine (fuel : Nat) (args : Value) (env : Environment) : Outcome :=
  match fuel with
  | 0 => .timeout
  | fuel + 1 =>
    match args with
    | .pair (.pair nameV paramsV) body =>
      -- `unscheme!(args => [Pair, rest])` succeeded
      match unsSymbol nameV with
      | .error e => .err e env
      | .ok name =>
        match makeLambda paramsV body env with
        | .error e => .err e env
        | .ok proc =>
          match env.bind name proc with
          | some env' => .ok .void env'
          | none => .panic .emptyFrames
    | .pair lhsV rest =>
      -- else branch: `unscheme!(args => [Symbol, any])`
      match unsSymbol lhsV with
      | .error e => .err e env
      | .ok lhs =>
        match uns1any rest with
        | .error e => .err e env
        | .ok rhsExpr =>
          match evalToValue fuel rhsExpr env with
          | .ok rhs env' =>
            match env'.bind lhs rhs with
            | some env'' => .ok .void env''
            | none => .panic .emptyFrames
          | o => o
    | v => .err (.expectedList v) env
termination_by structural fuel

/-- Rust `fn eval_and` (src/eval.rs 123–130). -/
def evalAnd (fuel : Nat) (args : Value) (env : Environment) : Outcome :=
  match fuel with
  | 0 => .timeout
  | fuel + 1 =>
    match args with
    | .emptyList => .ok (.boolean true) env
    | .pair a rest =>
      match evalToValue fuel a env with
      | .ok v env' =>
        if v.toBool then evalAnd fuel rest env'
        else .ok (.boolean false) env'
      | o => o
    | _ => .err (.expectedList .emptyList) env
termination_by structural fuel

/-- Rust `fn eval_or` (src/eval.rs 132–139). -/
def evalOr (fuel : Nat) (args : Value) (env : Environment) : Outcome :=
  match fuel with
  | 0 => .timeout
  | fuel + 1 =>
    match args with
    | .emptyList => .ok (.boolean false) env
    | .pair a rest =>
      match evalToValue fuel a env with
      | .ok v env' =>
        if v.toBool then .ok (.boolean true) env'
        else evalOr fuel rest env'
      | o => o
    | _ => .err (.expectedList .emptyList) env
termination_by structural fuel

/-- Evaluating all but the last body expression for effect
(src/eval.rs 92–94). -/
def evalSeq (fuel : Nat) (es : List Value) (env : Environment) : Res Unit :=
  match fuel with
  | 0 => .timeout
  | fuel + 1 =>
    match es with
    | [] => .ok () env
    | e :: rest =>
      match eval fuel e env with
      | .ok _ env' => evalSeq fuel rest env'
      | .err e env' => .err e env'
      | .panic k => .panic k
      | .timeout => .timeout
termination_by structural fuel

/-- Evaluating an argument list left to right, each demanding a value
(src/eval.rs 70–72 and the `list` primitive). -/
def evalArgs (fuel : Nat) (args : Value) (env : Environment) :
    Res (List Value) :=
  match fuel with
  | 0 => .timeout
  | fuel + 1 =>
    match args with
    | .emptyList => .ok [] env
    | .pair a rest =>
      match evalToValue fuel a env with
      | .ok v env' =>
        match evalArgs fuel rest env' with
        | .ok vs env'' => .ok (v :: vs) env''
        | .err e env'' => .err e env''
        | .panic k => .panic k
        | .timeout => .timeout
      | .err e env' => .err e env'
      | .panic k => .panic k
      | .timeout => .timeout
    | _ => .err (.expectedList .emptyList) env
termination_by structural fuel

/-- `unscheme!(params, env ==> [any])`: exactly one operand, evaluated
demanding a value. -/
def evalUnary (fuel : Nat) (args : Value) (env : Environment) : Outcome :=
  match fuel with
  | 0 => .timeout
  | fuel + 1 =>
    match uns1any args with
    | .error e => .err e env
    | .ok a => evalToValue fuel a env
termination_by structural fuel

/-- The left folds over evaluated numeric operands used by `+`, `*` and the
tails of `-` and `/` (`sum`, `product`, `try_fold`). -/
def foldNumArgs (fuel : Nat) (args : Value) (env : Environment) (acc : F64)
    (op : F64 → F64 → F64) : Res F64 :=
  match fuel with
  | 0 => .timeout
  | fuel + 1 =>
    match args with
    | .emptyList => .ok acc env
    | .pair a rest =>
      match evalToValue fuel a env with
      | .ok v env' =>
        match unsNumber v with
        | .ok x => foldNumArgs fuel rest env' (op acc x) op
        | .error e => .err e env'
      | .err e env' => .err e env'
      | .panic k => .panic k
      | .timeout => .timeout
    | _ => .err (.expectedList .emptyList) env
termination_by structural fuel

/-- The fold over evaluated string operands used by `string-append`. -/
def foldStrArgs (fuel : Nat) (args : Value) (env : Environment) (acc : String) :
    Res String :=
  match fuel with
  | 0 => .timeout
  | fuel + 1 =>
    match args with
    | .emptyList => .ok acc env
    | .pair a rest =>
      match evalToValue fuel a env with
      | .ok v env' =>
        match unsString v with
        | .ok s => foldStrArgs fuel rest env' (acc ++ s)
        | .error e => .err e env'
      | .err e env' => .err e env'
      | .panic k => .panic k
      | .timeout => .timeout
    | _ => .err (.expectedList .emptyList) env
termination_by structural fuel

/-- The primitive registry (the `BUILTINS` table, src/builtin.rs 13–105):
dispatch on the primitive's name.  Names outside the registry are never
constructed by the interpreter; they fall to a (unreachable) panic case. -/
def applyPrimitive (fuel : Nat) (name : String) (args : Value)
    (env : Environment) : Outcome :=
  match fuel with
  | 0 => .timeout
  | fuel + 1 =>
    match name with
    | "display" =>
      -- the println! side effect is not modelled
      match evalUnary fuel args env with
      | .ok _ env' => .ok .void env'
      | o => o
    | "not" =>
      match evalUnary fuel args env with
      | .ok v env' =>
        match unsBoolean v with
        | .ok b => .ok (.boolean !b) env'
        | .error e => .err e env'
      | o => o
    | "eq?" =>
      match unsConsAny args with
      | .error e => .err e env
      | .ok (a, rest) =>
        match evalToValue fuel a env with
        | .ok lhs env1 =>
          match uns1any rest with
          | .error e => .err e env1
          | .ok b =>
            match evalToValue fuel b env1 with
            | .ok rhs env2 => .ok (.boolean (eqValue lhs rhs)) env2
            | o => o
        | o => o
    | "cons" =>
      match unsConsAny args with
      | .error e => .err e env
      | .ok (a, rest) =>
        match evalToValue fuel a env with
        | .ok car env1 =>
          match uns1any rest with
          | .error e => .err e env1
          | .ok b =>
            match evalToValue fuel b env1 with
            | .ok cdr env2 => .ok (.pair car cdr) env2
            | o => o
        | o => o
    | "car" =>
      match evalUnary fuel args env with
      | .ok v env' =>
        match unsPair v with
        | .ok (car, _) => .ok car env'
        | .error e => .err e env'
      | o => o
    | "cdr" =>
      match evalUnary fuel args env with
      | .ok v env' =>
        match unsPair v with
        | .ok (_, cdr) => .ok cdr env'
        | .error e => .err e env'
      | o => o
    | "list" =>
      match evalArgs fuel args env with
      | .ok vs env' => .ok (listToValue vs) env'
      | .err e env' => .err e env'
      | .panic k => .panic k
      | .timeout => .timeout
    | "abs" =>
      match evalUnary fuel args env with
      | .ok v env' =>
        match unsNumber v with
        | .ok x => .ok (.number x.abs) env'
        | .error e => .err e env'
      | o => o
    | "+" =>
      match foldNumArgs fuel args env (.fin (.ofInt 0)) F64.add with
      | .ok x env' => .ok (.number x) env'
      | .err e env' => .err e env'
      | .panic k => .panic k
      | .timeout => .timeout
    | "-" =>
      match valueCount args with
      | 0 => .err (.incorrectArity 1 0) env
      | 1 =>
        match evalUnary fuel args env with
        | .ok v env' =>
          match unsNumber v with
          | .ok x => .ok (.number x.neg) env'
          | .error e => .err e env'
        | o => o
      | _ =>
        match unsConsAny args with
        | .error e => .err e env
        | .ok (a, rest) =>
          match evalToValue fuel a env with
          | .ok v env' =>
            match unsNumber v with
            | .ok minuend =>
              match foldNumArgs fuel rest env' (.fin (.ofInt 0)) F64.add with
              | .ok subtrahend env'' =>
                .ok (.number (minuend.sub subtrahend)) env''
              | .err e env'' => .err e env''
              | .panic k => .panic k
              | .timeout => .timeout
            | .error e => .err e env'
          | o => o
    | "*" =>
      match foldNumArgs fuel args env (.fin (.ofInt 1)) F64.mul with
      | .ok x env' => .ok (.number x) env'
      | .err e env' => .err e env'
      | .panic k => .panic k
      | .timeout => .timeout
    | "/" =>
      match valueCount args with
      | 0 => .err (.incorrectArity 1 0) env
      | 1 =>
        match evalUnary fuel args env with
        | .ok v env' =>
          match unsNumber v with
          | .ok x => .ok (.number ((F64.fin (.ofInt 1)).div x)) env'
          | .error e => .err e env'
        | o => o
      | _ =>
        match unsConsAny args with
        | .error e => .err e env
        | .ok (a, rest) =>
          match evalToValue fuel a env with
          | .ok v env' =>
            match unsNumber v with
            | .ok dividend =>
              match foldNumArgs fuel rest env' (.fin (.ofInt 1)) F64.mul with
              | .ok divisor env'' =>
                .ok (.number (dividend.div divisor)) env''
              | .err e env'' => .err e env''
              | .panic k => .panic k
              | .timeout => .timeout
            | .error e => .err e env'
          | o => o
    | "string-length" =>
      match evalUnary fuel args env with
      | .ok v env' =>
        match unsString v with
        | .ok s => .ok (.number (.fin (.ofInt s.length))) env'
        | .error e => .err e env'
      | o => o
    | "string-ref" =>
      match unsConsAny args with
      | .error e => .err e env
      | .ok (a, rest) =>
        match evalToValue fuel a env with
        | .ok sv env1 =>
          match unsString sv with
          | .error e => .err e env1
          | .ok s =>
            match evalUnary fuel rest env1 with
            | .ok iv env2 =>
              match unsNumber iv with
              | .error e => .err e env2
              | .ok idx =>
                match s.data.get? idx.toUsize with
                | some c => .ok (.character c) env2
                | none => .err (.indexOutOfBounds idx.toUsize) env2
            | o => o
        | o => o
    | "substring" =>
      match unsConsAny args with
      | .error e => .err e env
      | .ok (a, rest) =>
        match evalToValue fuel a env with
        | .ok sv env1 =>
          match unsString sv with
          | .error e => .err e env1
          | .ok s =>
            match unsConsAny rest with
            | .error e => .err e env1
            | .ok (b, rest2) =>
              match evalToValue fuel b env1 with
              | .ok av env2 =>
                match unsNumber av with
                | .error e => .err e env2
                | .ok start =>
                  match evalUnary fuel rest2 env2 with
                  | .ok bv env3 =>
                    match unsNumber bv with
                    | .error e => .err e env3
                    | .ok stop =>
                      match rustByteSlice s.data start.toUsize stop.toUsize with
                      | some cs => .ok (.string (String.mk cs)) env3
                      | none => .panic .stringSlice
                  | o => o
              | o => o
        | o => o
    | "string-append" =>
      match foldStrArgs fuel args env "" with
      | .ok s env' => .ok (.string s) env'
      | .err e env' => .err e env'
      | .panic k => .panic k
      | .timeout => .timeout
    | _ => .panic .unknownPrimitive -- the registry has no such function pointer
termination_by structural fuel

end

/-! ## The CLI loop (src/bin/oats.rs)

`run` parses a batch of forms and evaluates each against the persistent
environment, printing results and errors but never stopping at an error.
`runForms` is its evaluation loop on already-parsed forms: `none` models the
process aborting on a Rust panic (printing is not modelled). -/

def runForms (fuel : Nat) : List Value → Environment → Option Environment
  | [], env => some env
  | v :: rest, env =>
    match eval fuel v env with
    | .ok _ env' => runForms fuel rest env'
    | .err _ env' => runForms fuel rest env'
    | .panic _ => none
    | .timeout => none

/-! ## The depth discipline of the evaluator

`Res.DepthInv env r` packages, for an entry environment `env`:
* a success leaves the depth exactly at the entry depth,
* an error leaves the depth at least at the entry depth (`restore` does not
  run on the error paths),
* no `Environment::bind` panic happens when the entry stack is nonempty.
`LoopInv` states the loop-level variant (the loop never truncates, so even a
success only guarantees "at least as deep"), and bounds every recorded
iteration-start depth by `max env.depth (d + 1)`. -/

def Res.DepthInv {α : Type} (env : Environment) : Res α → Prop
  | .ok _ env' => env'.depth = env.depth
  | .err _ env' => env.depth ≤ env'.depth
  | .panic k => 1 ≤ env.depth → k ≠ .emptyFrames
  | .timeout => True

def LoopInv (env : Environment) (d : Nat) (r : Outcome × List Nat) : Prop :=
  (match r.1 with
   | .ok _ env' => env.depth ≤ env'.depth
   | .err _ env' => env.depth ≤ env'.depth
   | .panic k => 1 ≤ env.depth → k ≠ .emptyFrames
   | .timeout => True) ∧
  ∀ x ∈ r.2, x ≤ max env.depth (d + 1)

/-! ## Concrete values used by the claim theorems -/

/-- The number value `n` (an integer literal). -/
def numV (n : Int) : Value := .number (.fin (.ofInt n))

/-- `((lambda (x) y) 1)`: applying a closure whose body has an unbound
variable. -/
def leakProg : Value :=
  listToValue [listToValue [.symbol "lambda", listToValue [.symbol "x"],
    .symbol "y"], numV 1]

/-- The environment `eval` leaves behind after `leakProg` fails: the call
frame binding `x` is still on the stack. -/
def leakEnv : Environment := ⟨[("x", numV 1)] :: defaultEnv.frames⟩

/-- Three top-level forms: a define, a failing form, another define. -/
def c10Forms : List Value :=
  [listToValue [.symbol "define", .symbol "x", numV 1],
   listToValue [.symbol "car", numV 5],
   listToValue [.symbol "define", .symbol "z", numV 2]]

/-- The environment after running `c10Forms` through the CLI loop. -/
def c10Env : Environment :=
  match runForms 30 c10Forms defaultEnv with
  | some env => env
  | none => defaultEnv

/-- `(define (loop n) (if (eq? n 0) 0 (loop (- n 1))))`. -/
def countdownDefine : Value :=
  listToValue [.symbol "define", listToValue [.symbol "loop", .symbol "n"],
    listToValue [.symbol "if",
      listToValue [.symbol "eq?", .symbol "n", numV 0],
      numV 0,
      listToValue [.symbol "loop", listToValue [.symbol "-", .symbol "n", numV 1]]]]

/-- The environment after defining the self-tail-recursive `loop`. -/
def tailEnv : Environment :=
  match eval 50 countdownDefine defaultEnv with
  | .ok _ env => env
  | _ => defaultEnv

/-- `(loop 3)`. -/
def countdownCall : Value := listToValue [.symbol "loop", numV 3]

/-- The item-pair test of the Rust `zip(..).all(..)` in `fn eq`. -/
def eqItemsStep : Option Value × Option Value → Bool
  | (some x, some y) => eqValue x y
  | (none, none) => true
  | _ => false

/-- All symbol occurrences in an expression tree, in walk order: the quote
head, quoted data and nested lambda parameter lists included. -/
def symbolOccurrences : Value → List String
  | .symbol s => [s]
  | .pair car cdr => symbolOccurrences car ++ symbolOccurrences cdr
  | _ => []

/-- An environment binding only `a`. -/
def c4Env : Environment := ⟨[[("a", numV 1)]]⟩

/-- An environment binding only `y`. -/
def c4YEnv : Environment := ⟨[[("y", numV 5)]]⟩

/-- The environment of a caller whose call frame holds a local binding of
`a`, above the default bottom scope. -/
def callerEnv : Environment := ⟨[("a", numV 42)] :: defaultEnv.frames⟩

/-- `(define (h) a)` followed by `(define (g) (define a 42) (h))`. -/
def dynDemoForms : List Value :=
  [listToValue [.symbol "define", listToValue [.symbol "h"], .symbol "a"],
   listToValue [.symbol "define", listToValue [.symbol "g"],
     listToValue [.symbol "define", .symbol "a", numV 42],
     listToValue [.symbol "h"]]]

/-- The environment holding `h` and `g`. -/
def dynEnv : Environment :=
  match runForms 50 dynDemoForms defaultEnv with
  | some env => env
  | none => defaultEnv

/-! ## The reader (src/parse.rs) and the display form (src/value.rs)

The chumsky parser combinators are modelled as deterministic functions on
`List Char` returning `Option (result × remainder)`; `none` is a parse
failure (the error payload of `Error::ParseError` is not modelled).  The
choice combinator takes the first succeeding alternative and an alternative
that fails consumes nothing, exactly the chumsky backtracking semantics on
this grammar.

Whitespace: Rust trims and skips the characters with the Unicode
White_Space property; `rustWhitespace` lists exactly those code points. -/

/-- Rust `char::is_whitespace`: the Unicode White_Space code points
(U+0009 to U+000D, U+0020, U+0085, U+00A0, U+1680, U+2000 to U+200A,
U+2028, U+2029, U+202F, U+205F, U+3000). -/
def rustWhitespace (c : Char) : Bool :=
  (9 ≤ c.toNat && c.toNat ≤ 13) || c.toNat = 32 || c.toNat = 0x85 ||
    c.toNat = 0xA0 || c.toNat = 0x1680 ||
    (0x2000 ≤ c.toNat && c.toNat ≤ 0x200A) || c.toNat = 0x2028 ||
    c.toNat = 0x2029 || c.toNat = 0x202F || c.toNat = 0x205F ||
    c.toNat = 0x3000

/-- `str::trim`. -/
def trimChars (s : List Char) : List Char :=
  ((s.dropWhile rustWhitespace).reverse.dropWhile rustWhitespace).reverse

/-- chumsky `just(lit)`: consume exactly `lit` or fail. -/
def pJust : List Char → List Char → Option (List Char)
  | [], s => some s
  | _ :: _, [] => none
  | c :: lit, x :: s => if c = x then pJust lit s else none

/-- The `boolean` parser: `#t`/`#true`/`#f`/`#false`. -/
def parseBoolean (s : List Char) : Option (Value × List Char) :=
  match pJust ['#', 't'] s with
  | some rest =>
    match pJust ['r', 'u', 'e'] rest with
    | some rest2 => some (.boolean true, rest2)
    | none => some (.boolean true, rest)
  | none =>
    match pJust ['#', 'f'] s with
    | some rest =>
      match pJust ['a', 'l', 's', 'e'] rest with
      | some rest2 => some (.boolean false, rest2)
      | none => some (.boolean false, rest)
    | none => none

/-- The `character` parser: `#\` then `newline`, `space`, or any single
character. -/
def parseCharacter (s : List Char) : Option (Value × List Char) :=
  match pJust ['#', '\\'] s with
  | none => none
  | some rest =>
    match pJust ['n', 'e', 'w', 'l', 'i', 'n', 'e'] rest with
    | some rest2 => some (.character '\n', rest2)
    | none =>
      match pJust ['s', 'p', 'a', 'c', 'e'] rest with
      | some rest2 => some (.character ' ', rest2)
      | none =>
        match rest with
        | c :: rest2 => some (.character c, rest2)
        | [] => none

/-- chumsky `text::int(10)`: the single digit `0`, or a nonzero digit
followed by any digits (no leading zeros). -/
def parseInt10 (s : List Char) : Option (List Char × List Char) :=
  match s with
  | c :: rest =>
    if c = '0' then some (['0'], rest)
    else if c.isDigit then
      some (c :: rest.takeWhile Char.isDigit, rest.dropWhile Char.isDigit)
    else none
  | [] => none

/-- The numeric value of a digit string. -/
def digitsToNat (ds : List Char) : Nat :=
  ds.foldl (fun acc c => acc * 10 + (c.toNat - '0'.toNat)) 0

/-- The `f64` value of a parsed number literal (`str::parse::<f64>` on the
matched slice), exact: sign, integer digits, fraction digits.  `-0`, `-0.0`,
`-.0` parse to the IEEE negative zero. -/
def literalValue (neg : Bool) (ip fp : List Char) : F64 :=
  let n : Nat := digitsToNat ip * 10 ^ fp.length + digitsToNat fp
  if neg then
    (if n = 0 then .negZero else .fin (Q.mkRat (-(n : Int)) (10 ^ fp.length)))
  else .fin (Q.mkRat (n : Int) (10 ^ fp.length))

/-- The `number` parser: optional `-`, then (in order) `int.int`, `int.`,
`int`, `.int`. -/
def parseNumber (s : List Char) : Option (Value × List Char) :=
  let core := fun (neg : Bool) (s1 : List Char) =>
    match parseInt10 s1 with
    | some (ip, r1) =>
      match r1 with
      | '.' :: r2 =>
        match parseInt10 r2 with
        | some (fp, r3) => some (Value.number (literalValue neg ip fp), r3)
        | none => some (Value.number (literalValue neg ip []), r2)
      | _ => some (Value.number (literalValue neg ip []), r1)
    | none =>
      match s1 with
      | '.' :: r2 =>
        match parseInt10 r2 with
        | some (fp, r3) => some (Value.number (literalValue neg [] fp), r3)
        | none => none
      | _ => none
  match s with
  | '-' :: rest => core true rest
  | _ => core false s

/-- The characters a double-quoted string literal accepts directly
(`none_of("\\\"")`). -/
def stringPlainChar (c : Char) : Bool := !(c = '\\' || c = '"')

/-- The body of the `string` parser after the opening quote: plain
characters and the escapes `\n`, `\t`, `\"`, `\\`, up to the closing
quote. -/
def parseStringBody : List Char → List Char → Option (Value × List Char)
  | [], _ => none
  | c :: rest, acc =>
    if c = '"' then some (.string (String.mk acc.reverse), rest)
    else if c = '\\' then
      match rest with
      | 'n' :: r => parseStringBody r ('\n' :: acc)
      | 't' :: r => parseStringBody r ('\t' :: acc)
      | '"' :: r => parseStringBody r ('"' :: acc)
      | '\\' :: r => parseStringBody r ('\\' :: acc)
      | _ => none
    else parseStringBody rest (c :: acc)

/-- The `string` parser. -/
def parseStringLit (s : List Char) : Option (Value × List Char) :=
  match s with
  | '"' :: rest => parseStringBody rest []
  | _ => none

/-- The characters an unquoted symbol accepts
(`none_of(" \t\r\n|()\";'#")`). -/
def symbolChar (c : Char) : Bool :=
  !(c = ' ' || c = '\t' || c = '\r' || c = '\n' || c = '|' || c = '(' ||
    c = ')' || c = '"' || c = ';' || c = '\'' || c = '#')

/-- The characters a `|`-delimited symbol accepts (`none_of("|\\")`). -/
def barSymbolChar (c : Char) : Bool := !(c = '|' || c = '\\')

/-- The `symbol` parser: a `|`-delimited nonempty run, or a nonempty
unquoted run. -/
def parseSymbol (s : List Char) : Option (Value × List Char) :=
  match s with
  | '|' :: rest =>
    let content := rest.takeWhile barSymbolChar
    if content.isEmpty then none
    else
      match rest.drop content.length with
      | '|' :: r2 => some (.symbol (String.mk content), r2)
      | _ => none
  | _ =>
    let content := s.takeWhile symbolChar
    if content.isEmpty then none
    else some (.symbol (String.mk content), s.drop content.length)

mutual

/-- The `expression` parser: `choice((boolean, character, number, string,
symbol, quote, list))` (`atom` then `list`). -/
def parseExpr (fuel : Nat) (s : List Char) : Option (Value × List Char) :=
  match fuel with
  | 0 => none
  | fuel + 1 =>
    match parseBoolean s with
    | some r => some r
    | none =>
      match parseCharacter s with
      | some r => some r
      | none =>
        match parseNumber s with
        | some r => some r
        | none =>
          match parseStringLit s with
          | some r => some r
          | none =>
            match parseSymbol s with
            | some r => some r
            | none =>
              match parseQuote fuel s with
              | some r => some r
              | none => parseList fuel s
termination_by structural fuel

/-- The `quote` parser: `'expr` desugars to `(quote expr)`. -/
def parseQuote (fuel : Nat) (s : List Char) : Option (Value × List Char) :=
  match fuel with
  | 0 => none
  | fuel + 1 =>
    match s with
    | '\'' :: rest =>
      match parseExpr fuel rest with
      | some (v, r) =>
        some (.pair (.symbol "quote") (.pair v .emptyList), r)
      | none => none
    | _ => none
termination_by structural fuel

/-- The `list` parser: `(`, padded expressions, `)`. -/
def parseList (fuel : Nat) (s : List Char) : Option (Value × List Char) :=
  match fuel with
  | 0 => none
  | fuel + 1 =>
    match s with
    | '(' :: rest =>
      match parseListItems fuel rest with
      | (vs, r) =>
        match r with
        | ')' :: r2 => some (listToValue vs, r2)
        | _ => none
    | _ => none
termination_by structural fuel

/-- `expression.padded().repeated()`: one iteration consumes leading
whitespace, an expression and trailing whitespace; a failing iteration
consumes nothing (backtracking). -/
def parseListItems (fuel : Nat) (s : List Char) : List Value × List Char :=
  match fuel with
  | 0 => ([], s)
  | fuel + 1 =>
    match parseExpr fuel (s.dropWhile rustWhitespace) with
    | some (v, r) =>
      match parseListItems fuel (r.dropWhile rustWhitespace) with
      | (vs, r2) => (v :: vs, r2)
    | none => ([], s)
termination_by structural fuel

end

/-- Rust `parse_one`: trim, parse one expression, require full
consumption.  The fuel `3 * length + 3` is enough for every input the
grammar accepts: a recursion step consumes at least one character at a fuel
cost of at most three (expression → list → items). -/
def parseOne (input : String) : Option Value :=
  let t := trimChars input.data
  match parseExpr (3 * t.length + 3) t with
  | some (v, []) => some v
  | _ => none

/-- The decimal digit character for `n < 10`. -/
def digitChar (n : Nat) : Char := Char.ofNat ('0'.toNat + n)

/-- Decimal digits of `n`, most significant first, no leading zeros
(`["0"]` for zero); the fuel (any value `> n` suffices) only bounds the
digit count. -/
def natDigitsAux : Nat → Nat → List Char
  | 0, _ => []
  | fuel + 1, n =>
    if n < 10 then [digitChar n]
    else natDigitsAux fuel (n / 10) ++ [digitChar (n % 10)]

/-- Decimal digits of `n`. -/
def natDigits (n : Nat) : List Char := natDigitsAux (n + 1) n

/-- The least `k₀ ≥ k` with `d ∣ 10 ^ k₀`, searching `fuel` steps (every
denominator reachable from a parsed literal divides a power of ten and the
least exponent is below `d`, see `den_le_findPow10Exp` below). -/
def findPow10Exp (d : Nat) : Nat → Nat → Nat
  | k, 0 => k
  | k, fuel + 1 => if 10 ^ k % d = 0 then k else findPow10Exp d (k + 1) fuel

/-- Insert the decimal point `k` digits from the right, zero-padding a short
digit string with a leading `0.` (`5`/`k=1` renders `0.5`). -/
def insertPoint (ds : List Char) (k : Nat) : List Char :=
  if k = 0 then ds
  else if ds.length ≤ k then
    '0' :: '.' :: (List.replicate (k - ds.length) '0' ++ ds)
  else ds.take (ds.length - k) ++ '.' :: ds.drop (ds.length - k)

/-- Rust `f64::to_string` for a finite value, exact on the reachable
(decimal-fraction) values: the shortest decimal digits of `|q|` with the
point placed by the least power of ten the denominator divides, and a `-`
sign for negative values. -/
def displayQ (q : Q) : List Char :=
  let k := findPow10Exp q.den 0 q.den
  let m := q.num.natAbs * 10 ^ k / q.den
  (if q.num < 0 then ['-'] else []) ++ insertPoint (natDigits m) k

/-- Rust `f64::to_string`. -/
def displayF64 : F64 → List Char
  | .nan => ['N', 'a', 'N']
  | .inf false => ['i', 'n', 'f']
  | .inf true => ['-', 'i', 'n', 'f']
  | .negZero => ['-', '0']
  | .fin q => displayQ q

/-- The pair-nesting depth of a value, a bound on the recursion depth of the
display routine (which only recurses through `pair` components). -/
def valueDepth : Value → Nat
  | .pair car cdr => max (valueDepth car) (valueDepth cdr) + 1
  | _ => 1

mutual

/-- `impl Display for Value` (src/value.rs 117–169), recursion counted by a
fuel parameter so that concrete runs reduce; `displayValue` below supplies a
sufficient fuel. -/
def displayValueF (fuel : Nat) (v : Value) : List Char :=
  match fuel with
  | 0 => []
  | fuel + 1 =>
    match v with
    | .void => ['#', '<', 'v', 'o', 'i', 'd', '>']
    | .symbol name =>
      if name.data.any rustWhitespace then '|' :: name.data ++ ['|']
      else name.data
    | .number x => displayF64 x
    | .string s => '"' :: s.data ++ ['"']
    | .character c => ['#', '\\', c]
    | .boolean true => ['#', 't']
    | .boolean false => ['#', 'f']
    | .emptyList => ['(', ')']
    | .primitiveProcedure _ =>
      ['#', '<', 'p', 'r', 'o', 'c', 'e', 'd', 'u', 'r', 'e', '>']
    | .procedure _ _ _ =>
      ['#', '<', 'p', 'r', 'o', 'c', 'e', 'd', 'u', 'r', 'e', '>']
    | .pair car cdr =>
      match car, cdr with
      | .symbol "quote", .pair v .emptyList => '\'' :: displayValueF fuel v
      | car, cdr => '(' :: (displayValueF fuel car ++ displayTailF fuel cdr)
termination_by structural fuel

/-- The loop rendering the rest of a pair chain: ` x` per element, `)` after
the empty list, ` . x)` after an improper tail. -/
def displayTailF (fuel : Nat) (v : Value) : List Char :=
  match fuel with
  | 0 => []
  | fuel + 1 =>
    match v with
    | .pair car cdr => ' ' :: (displayValueF fuel car ++ displayTailF fuel cdr)
    | .emptyList => [')']
    | v => ' ' :: '.' :: ' ' :: (displayValueF fuel v ++ [')'])
termination_by structural fuel

end

/-- `impl Display for Value`: the fuel `2 * valueDepth v` covers every
recursive call (`quote` skips two pair layers per step at a fuel cost of
one, the others one layer per step at a cost of at most two). -/
def displayValue (v : Value) : List Char := displayValueF (2 * valueDepth v) v

/-- The chumsky `int(10)` token shapes: a lone zero, or a nonzero digit
followed by digits. -/
def IntTok (ds : List Char) : Prop :=
  ds = ['0'] ∨
    (ds ≠ [] ∧ (∀ c ∈ ds, c.isDigit = true) ∧ ds.head? ≠ some '0')

/-! ## Theorems -/

/-! ## Pure facts about the environment operations -/

theorem Environment.bind_eq_some {env env' : Environment} {n : String}
    {v : Value} (h : env.bind n v = some env') : env'.depth = env.depth := by
  unfold Environment.bind at h
  cases hf : env.frames with
  | nil => rw [hf] at h; cases h
  | cons f rest =>
    rw [hf] at h
    cases h
    simp [Environment.depth, hf]

theorem Environment.bind_total {env : Environment} (h : 1 ≤ env.depth)
    (n : String) (v : Value) : ∃ env', env.bind n v = some env' := by
  cases hf : env.frames with
  | nil => simp [Environment.depth, hf] at h
  | cons f rest =>
    exact ⟨⟨((n, v) :: f) :: rest⟩, by simp [Environment.bind, hf]⟩

theorem bindAll_eq_some : ∀ (ps : List (String × Value)) {env env' : Environment},
    bindAll ps env = some env' → env'.depth = env.depth := by
  intro ps
  induction ps with
  | nil => intro env env' h; cases h; rfl
  | cons p rest ih =>
    intro env env' h
    unfold bindAll at h
    cases hb : env.bind p.1 p.2 with
    | none => rw [hb] at h; cases h
    | some env₁ =>
      rw [hb] at h
      rw [ih h, Environment.bind_eq_some hb]

theorem bindAll_total : ∀ (ps : List (String × Value)) {env : Environment},
    1 ≤ env.depth → ∃ env', bindAll ps env = some env' := by
  intro ps
  induction ps with
  | nil => intro env _; exact ⟨env, rfl⟩
  | cons p rest ih =>
    intro env h
    obtain ⟨env₁, hb⟩ := Environment.bind_total h p.1 p.2
    obtain ⟨env₂, hrest⟩ := @ih env₁
      (by rw [Environment.bind_eq_some hb]; exact h)
    exact ⟨env₂, by unfold bindAll; rw [hb]; exact hrest⟩

theorem Environment.restore_depth (env : Environment) (d : Nat) :
    (env.restore d).depth = min d env.depth := by
  simp only [Environment.restore, Environment.depth, List.length_drop]
  omega

theorem Environment.newScope_depth (env : Environment) :
    env.newScope.depth = env.depth + 1 := rfl

theorem pushIfEntry_depth (d : Nat) (env : Environment) :
    (pushIfEntry d env).depth
      = if env.depth = d then env.depth + 1 else env.depth := by
  unfold pushIfEntry
  split <;> simp [Environment.newScope_depth]

theorem Res.DepthInv.of_eq {α : Type} {env : Environment} {r r' : Res α}
    (h : r.DepthInv env) (he : r = r') : r'.DepthInv env := he ▸ h

theorem Res.DepthInv.congr {α : Type} {env' env : Environment} {r : Res α}
    (h : r.DepthInv env') (hd : env'.depth = env.depth) : r.DepthInv env := by
  cases r with
  | ok a e => unfold Res.DepthInv at h ⊢; rw [← hd]; exact h
  | err e e2 => unfold Res.DepthInv at h ⊢; rw [← hd]; exact h
  | panic k => intro h1; exact h (hd ▸ h1)
  | timeout => trivial

theorem depthInv_ok {α : Type} {a : α} {env env' : Environment}
    (h : env'.depth = env.depth) : (Res.ok a env').DepthInv env := h

theorem depthInv_ok_self {α : Type} {a : α} {env : Environment} :
    (Res.ok a env).DepthInv env := rfl

theorem depthInv_err {α : Type} {e : EvalError} {env env' : Environment}
    (h : env.depth ≤ env'.depth) : (Res.err (α := α) e env').DepthInv env := h

theorem depthInv_err_self {α : Type} {e : EvalError} {env : Environment} :
    (Res.err (α := α) e env).DepthInv env := le_refl _

theorem depthInv_panic_ne {α : Type} {k : PanicKind} {env : Environment}
    (h : k ≠ PanicKind.emptyFrames) : (Res.panic (α := α) k).DepthInv env :=
  fun _ => h

theorem depthInv_timeout {α : Type} {env : Environment} :
    (Res.timeout (α := α)).DepthInv env := trivial

theorem LoopInv.of_depthInv {env : Environment} {d : Nat} {r : Outcome}
    (h : r.DepthInv env) {tr : List Nat}
    (htr : ∀ x ∈ tr, x ≤ max env.depth (d + 1)) : LoopInv env d (r, tr) := by
  refine ⟨?_, htr⟩
  cases r with
  | ok a e => exact le_of_eq h.symm
  | err e e2 => exact h
  | panic k => exact h
  | timeout => trivial

theorem loopInv_singleton {env : Environment} {d : Nat} :
    ∀ x ∈ [env.depth], x ≤ max env.depth (d + 1) := by
  intro x hx
  simp at hx
  simp [hx, le_max_left]

theorem LoopInv.cons_of_inner {env env' : Environment} {d : Nat}
    {rl : Outcome × List Nat} (hd : env'.depth = env.depth)
    (h : LoopInv env' d rl) : LoopInv env d (rl.1, env.depth :: rl.2) := by
  refine ⟨?_, ?_⟩
  · have h1 := h.1
    cases hr : rl.1 with
    | ok a e => rw [hr] at h1; rw [← hd]; exact h1
    | err e e2 => rw [hr] at h1; rw [← hd]; exact h1
    | panic k => rw [hr] at h1; intro hp; exact h1 (hd ▸ hp)
    | timeout => trivial
  · intro x hx
    rcases List.mem_cons.mp hx with rfl | hx
    · exact le_max_left _ _
    · have := h.2 x hx
      rw [hd] at this
      exact this

theorem LoopInv.weaken {env env6 : Environment} {d : Nat}
    {r : Outcome × List Nat} (hle : env.depth ≤ env6.depth)
    (hub : env6.depth ≤ max env.depth (d + 1)) (h : LoopInv env6 d r) :
    LoopInv env d r := by
  refine ⟨?_, ?_⟩
  · have h1 := h.1
    cases hr : r.1 with
    | ok a e => rw [hr] at h1; omega
    | err e e2 => rw [hr] at h1; omega
    | panic k => rw [hr] at h1; intro hp; exact h1 (by omega)
    | timeout => trivial
  · intro x hx
    have := h.2 x hx
    omega

set_option maxHeartbeats 1000000 in
theorem evalDepth_master : ∀ fuel : Nat,
    (∀ v env, (eval fuel v env).DepthInv env) ∧
    (∀ v env, (evalToValue fuel v env).DepthInv env) ∧
    (∀ d v env, LoopInv env d (evalLoop fuel d v env)) ∧
    (∀ d name args env, LoopInv env d (evalApplication fuel d name args env)) ∧
    (∀ args env, (evalDefine fuel args env).DepthInv env) ∧
    (∀ args env, (evalAnd fuel args env).DepthInv env) ∧
    (∀ args env, (evalOr fuel args env).DepthInv env) ∧
    (∀ es env, (evalSeq fuel es env).DepthInv env) ∧
    (∀ args env, (evalArgs fuel args env).DepthInv env) ∧
    (∀ args env, (evalUnary fuel args env).DepthInv env) ∧
    (∀ args env acc op, (foldNumArgs fuel args env acc op).DepthInv env) ∧
    (∀ args env acc, (foldStrArgs fuel args env acc).DepthInv env) ∧
    (∀ n args env, (applyPrimitive fuel n args env).DepthInv env) := by
  intro fuel
  induction fuel with
  | zero =>
    refine ⟨?_, ?_, ?_, ?_, ?_, ?_, ?_, ?_, ?_, ?_, ?_, ?_, ?_⟩ <;> intros <;>
      simp [eval, evalToValue, evalLoop, evalApplication, evalDefine, evalAnd,
        evalOr, evalSeq, evalArgs, evalUnary, foldNumArgs, foldStrArgs,
        applyPrimitive, Res.DepthInv, LoopInv]
  | succ n ih =>
    obtain ⟨ihEval, ihETV, ihLoop, ihApp, ihDef, ihAnd, ihOr, ihSeq, ihArgs,
      ihUn, ihFoldN, ihFoldS, ihPrim⟩ := ih
    have hEval : ∀ v env, (eval (n + 1) v env).DepthInv env := by
      intro v env
      have hl := (ihLoop env.depth v env).1
      simp only [eval]
      cases h : (evalLoop n env.depth v env).1 with
      | ok r env' =>
        rw [h] at hl
        exact depthInv_ok (by rw [Environment.restore_depth]; omega)
      | err e env' => rw [h] at hl; exact hl
      | panic k => rw [h] at hl; exact hl
      | timeout => exact depthInv_timeout
    have hETV : ∀ v env, (evalToValue (n + 1) v env).DepthInv env := by
      intro v env
      simp only [evalToValue]
      cases h : eval n v env with
      | ok r env' =>
        have hd : env'.depth = env.depth := (ihEval v env).of_eq h
        cases r <;> first
          | exact depthInv_err (le_of_eq hd.symm)
          | exact depthInv_ok hd
      | err e env' => exact (ihEval v env).of_eq h
      | panic k => exact (ihEval v env).of_eq h
      | timeout => exact depthInv_timeout
    have hSeq : ∀ es env, (evalSeq (n + 1) es env).DepthInv env := by
      intro es env
      simp only [evalSeq]
      cases es with
      | nil => exact depthInv_ok_self
      | cons e rest =>
        dsimp only
        cases h : eval n e env with
        | ok r env' =>
          have hd : env'.depth = env.depth := (ihEval e env).of_eq h
          exact (ihSeq rest env').congr hd
        | err e2 env' => exact (ihEval e env).of_eq h
        | panic k => exact (ihEval e env).of_eq h
        | timeout => exact depthInv_timeout
    have hArgs : ∀ args env, (evalArgs (n + 1) args env).DepthInv env := by
      intro args env
      simp only [evalArgs]
      cases args with
      | emptyList => exact depthInv_ok_self
      | pair a rest =>
        dsimp only
        cases h : evalToValue n a env with
        | ok v env' =>
          dsimp only
          have hd : env'.depth = env.depth := (ihETV a env).of_eq h
          cases h2 : evalArgs n rest env' with
          | ok vs env'' =>
            have hd2 : env''.depth = env'.depth := (ihArgs rest env').of_eq h2
            exact depthInv_ok (by omega)
          | err e env'' =>
            have hle : env'.depth ≤ env''.depth := (ihArgs rest env').of_eq h2
            exact depthInv_err (by omega)
          | panic k =>
            have hp := (ihArgs rest env').of_eq h2
            exact fun h1 => hp (by omega)
          | timeout => exact depthInv_timeout
        | err e env' => exact (ihETV a env).of_eq h
        | panic k => exact (ihETV a env).of_eq h
        | timeout => exact depthInv_timeout
      | void => exact depthInv_err_self
      | symbol s => exact depthInv_err_self
      | number x => exact depthInv_err_self
      | string s => exact depthInv_err_self
      | character c => exact depthInv_err_self
      | boolean b => exact depthInv_err_self
      | primitiveProcedure s => exact depthInv_err_self
      | procedure p b c => exact depthInv_err_self
    have hUn : ∀ args env, (evalUnary (n + 1) args env).DepthInv env := by
      intro args env
      simp only [evalUnary]
      cases h : uns1any args with
      | error e => exact depthInv_err_self
      | ok a => exact ihETV a env
    have hFoldN : ∀ args env acc op,
        (foldNumArgs (n + 1) args env acc op).DepthInv env := by
      intro args env acc op
      simp only [foldNumArgs]
      cases args with
      | emptyList => exact depthInv_ok_self
      | pair a rest =>
        dsimp only
        cases h : evalToValue n a env with
        | ok v env' =>
          dsimp only
          have hd : env'.depth = env.depth := (ihETV a env).of_eq h
          cases unsNumber v with
          | ok x => exact ((ihFoldN rest env' (op acc x) op)).congr hd
          | error e => exact depthInv_err (le_of_eq hd.symm)
        | err e env' => exact (ihETV a env).of_eq h
        | panic k => exact (ihETV a env).of_eq h
        | timeout => exact depthInv_timeout
      | void => exact depthInv_err_self
      | symbol s => exact depthInv_err_self
      | number x => exact depthInv_err_self
      | string s => exact depthInv_err_self
      | character c => exact depthInv_err_self
      | boolean b => exact depthInv_err_self
      | primitiveProcedure s => exact depthInv_err_self
      | procedure p b c => exact depthInv_err_self
    have hFoldS : ∀ args env acc,
        (foldStrArgs (n + 1) args env acc).DepthInv env := by
      intro args env acc
      simp only [foldStrArgs]
      cases args with
      | emptyList => exact depthInv_ok_self
      | pair a rest =>
        dsimp only
        cases h : evalToValue n a env with
        | ok v env' =>
          dsimp only
          have hd : env'.depth = env.depth := (ihETV a env).of_eq h
          cases unsString v with
          | ok s => exact ((ihFoldS rest env' (acc ++ s))).congr hd
          | error e => exact depthInv_err (le_of_eq hd.symm)
        | err e env' => exact (ihETV a env).of_eq h
        | panic k => exact (ihETV a env).of_eq h
        | timeout => exact depthInv_timeout
      | void => exact depthInv_err_self
      | symbol s => exact depthInv_err_self
      | number x => exact depthInv_err_self
      | string s => exact depthInv_err_self
      | character c => exact depthInv_err_self
      | boolean b => exact depthInv_err_self
      | primitiveProcedure s => exact depthInv_err_self
      | procedure p b c => exact depthInv_err_self
    have hAnd : ∀ args env, (evalAnd (n + 1) args env).DepthInv env := by
      intro args env
      simp only [evalAnd]
      cases args with
      | emptyList => exact depthInv_ok_self
      | pair a rest =>
        dsimp only
        cases h : evalToValue n a env with
        | ok v env' =>
          have hd : env'.depth = env.depth := (ihETV a env).of_eq h
          by_cases hb : v.toBool
          · simp only [hb, if_true]
            exact (ihAnd rest env').congr hd
          · simp only [hb, if_false]
            exact depthInv_ok hd
        | err e env' => exact (ihETV a env).of_eq h
        | panic k => exact (ihETV a env).of_eq h
        | timeout => exact depthInv_timeout
      | void => exact depthInv_err_self
      | symbol s => exact depthInv_err_self
      | number x => exact depthInv_err_self
      | string s => exact depthInv_err_self
      | character c => exact depthInv_err_self
      | boolean b => exact depthInv_err_self
      | primitiveProcedure s => exact depthInv_err_self
      | procedure p b c => exact depthInv_err_self
    have hOr : ∀ args env, (evalOr (n + 1) args env).DepthInv env := by
      intro args env
      simp only [evalOr]
      cases args with
      | emptyList => exact depthInv_ok_self
      | pair a rest =>
        dsimp only
        cases h : evalToValue n a env with
        | ok v env' =>
          have hd : env'.depth = env.depth := (ihETV a env).of_eq h
          by_cases hb : v.toBool
          · simp only [hb, if_true]
            exact depthInv_ok hd
          · simp only [hb, if_false]
            exact (ihOr rest env').congr hd
        | err e env' => exact (ihETV a env).of_eq h
        | panic k => exact (ihETV a env).of_eq h
        | timeout => exact depthInv_timeout
      | void => exact depthInv_err_self
      | symbol s => exact depthInv_err_self
      | number x => exact depthInv_err_self
      | string s => exact depthInv_err_self
      | character c => exact depthInv_err_self
      | boolean b => exact depthInv_err_self
      | primitiveProcedure s => exact depthInv_err_self
      | procedure p b c => exact depthInv_err_self
    have hDef : ∀ args env, (evalDefine (n + 1) args env).DepthInv env := by
      intro args env
      simp only [evalDefine]
      cases args with
      | pair head rest0 =>
        cases head
        case pair nameV paramsV =>
          dsimp only
          cases unsSymbol nameV with
          | error e => exact depthInv_err_self
          | ok name =>
            dsimp only
            cases makeLambda paramsV rest0 env with
            | error e => exact depthInv_err_self
            | ok proc =>
              dsimp only
              cases hb : env.bind name proc with
              | some env' => exact depthInv_ok (Environment.bind_eq_some hb)
              | none =>
                intro h1
                obtain ⟨env', hsome⟩ := Environment.bind_total h1 name proc
                rw [hb] at hsome
                cases hsome
        case symbol s =>
          dsimp only [unsSymbol]
          cases uns1any rest0 with
          | error e => exact depthInv_err_self
          | ok rhsExpr =>
            dsimp only
            cases h : evalToValue n rhsExpr env with
            | ok rhs env' =>
              dsimp only
              have hd : env'.depth = env.depth := (ihETV rhsExpr env).of_eq h
              cases hb : env'.bind s rhs with
              | some env'' =>
                exact depthInv_ok (by rw [Environment.bind_eq_some hb, hd])
              | none =>
                intro h1
                obtain ⟨env'', hsome⟩ :=
                  @Environment.bind_total env' (by omega) s rhs
                rw [hb] at hsome
                cases hsome
            | err e env' => exact (ihETV rhsExpr env).of_eq h
            | panic k => exact (ihETV rhsExpr env).of_eq h
            | timeout => exact depthInv_timeout
        all_goals (dsimp only [unsSymbol]; exact depthInv_err_self)
      | void => exact depthInv_err_self
      | symbol s => exact depthInv_err_self
      | number x => exact depthInv_err_self
      | string s => exact depthInv_err_self
      | character c => exact depthInv_err_self
      | boolean b => exact depthInv_err_self
      | emptyList => exact depthInv_err_self
      | primitiveProcedure s => exact depthInv_err_self
      | procedure p b c => exact depthInv_err_self
    have hPrim : ∀ pn args env, (applyPrimitive (n + 1) pn args env).DepthInv env := by
      intro pn args env
      simp only [applyPrimitive]
      split
      · -- display
        cases h : evalUnary n args env with
        | ok v env' => exact depthInv_ok ((ihUn args env).of_eq h)
        | err e env' => exact (ihUn args env).of_eq h
        | panic k => exact (ihUn args env).of_eq h
        | timeout => exact depthInv_timeout
      · -- not
        cases h : evalUnary n args env with
        | ok v env' =>
          dsimp only
          have hd : env'.depth = env.depth := (ihUn args env).of_eq h
          cases unsBoolean v with
          | ok b => exact depthInv_ok hd
          | error e => exact depthInv_err (le_of_eq hd.symm)
        | err e env' => exact (ihUn args env).of_eq h
        | panic k => exact (ihUn args env).of_eq h
        | timeout => exact depthInv_timeout
      · -- eq?
        cases unsConsAny args with
        | error e => exact depthInv_err_self
        | ok pr =>
          obtain ⟨a, rest⟩ := pr
          dsimp only
          cases h : evalToValue n a env with
          | ok lhs env1 =>
            dsimp only
            have hd1 : env1.depth = env.depth := (ihETV a env).of_eq h
            cases uns1any rest with
            | error e => exact depthInv_err (le_of_eq hd1.symm)
            | ok b =>
              dsimp only
              cases h2 : evalToValue n b env1 with
              | ok rhs env2 =>
                have hd2 : env2.depth = env1.depth := (ihETV b env1).of_eq h2
                exact depthInv_ok (by omega)
              | err e env2 =>
                have := (ihETV b env1).of_eq h2
                exact depthInv_err (by
                  have hle : env1.depth ≤ env2.depth := this
                  omega)
              | panic k =>
                have hp := (ihETV b env1).of_eq h2
                exact fun h1 => hp (by omega)
              | timeout => exact depthInv_timeout
          | err e env1 => exact (ihETV a env).of_eq h
          | panic k => exact (ihETV a env).of_eq h
          | timeout => exact depthInv_timeout
      · -- cons
        cases unsConsAny args with
        | error e => exact depthInv_err_self
        | ok pr =>
          obtain ⟨a, rest⟩ := pr
          dsimp only
          cases h : evalToValue n a env with
          | ok car env1 =>
            dsimp only
            have hd1 : env1.depth = env.depth := (ihETV a env).of_eq h
            cases uns1any rest with
            | error e => exact depthInv_err (le_of_eq hd1.symm)
            | ok b =>
              dsimp only
              cases h2 : evalToValue n b env1 with
              | ok cdr env2 =>
                have hd2 : env2.depth = env1.depth := (ihETV b env1).of_eq h2
                exact depthInv_ok (by omega)
              | err e env2 =>
                have hle : env1.depth ≤ env2.depth := (ihETV b env1).of_eq h2
                exact depthInv_err (by omega)
              | panic k =>
                have hp := (ihETV b env1).of_eq h2
                exact fun h1 => hp (by omega)
              | timeout => exact depthInv_timeout
          | err e env1 => exact (ihETV a env).of_eq h
          | panic k => exact (ihETV a env).of_eq h
          | timeout => exact depthInv_timeout
      · -- car
        cases h : evalUnary n args env with
        | ok v env' =>
          dsimp only
          have hd : env'.depth = env.depth := (ihUn args env).of_eq h
          cases hp : unsPair v with
          | ok pr => obtain ⟨c1, c2⟩ := pr; exact depthInv_ok hd
          | error e => exact depthInv_err (le_of_eq hd.symm)
        | err e env' => exact (ihUn args env).of_eq h
        | panic k => exact (ihUn args env).of_eq h
        | timeout => exact depthInv_timeout
      · -- cdr
        cases h : evalUnary n args env with
        | ok v env' =>
          dsimp only
          have hd : env'.depth = env.depth := (ihUn args env).of_eq h
          cases hp : unsPair v with
          | ok pr => obtain ⟨c1, c2⟩ := pr; exact depthInv_ok hd
          | error e => exact depthInv_err (le_of_eq hd.symm)
        | err e env' => exact (ihUn args env).of_eq h
        | panic k => exact (ihUn args env).of_eq h
        | timeout => exact depthInv_timeout
      · -- list
        cases h : evalArgs n args env with
        | ok vs env' => exact depthInv_ok ((ihArgs args env).of_eq h)
        | err e env' => exact (ihArgs args env).of_eq h
        | panic k => exact (ihArgs args env).of_eq h
        | timeout => exact depthInv_timeout
      · -- abs
        cases h : evalUnary n args env with
        | ok v env' =>
          dsimp only
          have hd : env'.depth = env.depth := (ihUn args env).of_eq h
          cases unsNumber v with
          | ok x => exact depthInv_ok hd
          | error e => exact depthInv_err (le_of_eq hd.symm)
        | err e env' => exact (ihUn args env).of_eq h
        | panic k => exact (ihUn args env).of_eq h
        | timeout => exact depthInv_timeout
      · -- +
        cases h : foldNumArgs n args env (.fin (.ofInt 0)) F64.add with
        | ok x env' => exact depthInv_ok ((ihFoldN args env _ _).of_eq h)
        | err e env' => exact (ihFoldN args env _ _).of_eq h
        | panic k => exact (ihFoldN args env _ _).of_eq h
        | timeout => exact depthInv_timeout
      · -- minus
        cases hc : valueCount args with
        | zero => exact depthInv_err_self
        | succ m =>
          cases m with
          | zero =>
            cases h : evalUnary n args env with
            | ok v env' =>
              dsimp only
              have hd : env'.depth = env.depth := (ihUn args env).of_eq h
              cases unsNumber v with
              | ok x => exact depthInv_ok hd
              | error e => exact depthInv_err (le_of_eq hd.symm)
            | err e env' => exact (ihUn args env).of_eq h
            | panic k => exact (ihUn args env).of_eq h
            | timeout => exact depthInv_timeout
          | succ m2 =>
            cases unsConsAny args with
            | error e => exact depthInv_err_self
            | ok pr =>
              obtain ⟨a, rest⟩ := pr
              dsimp only
              cases h : evalToValue n a env with
              | ok v env' =>
                dsimp only
                have hd : env'.depth = env.depth := (ihETV a env).of_eq h
                cases unsNumber v with
                | error e => exact depthInv_err (le_of_eq hd.symm)
                | ok minuend =>
                  dsimp only
                  cases h2 : foldNumArgs n rest env' (.fin (.ofInt 0)) F64.add with
                  | ok s env'' =>
                    have hd2 : env''.depth = env'.depth :=
                      (ihFoldN rest env' _ _).of_eq h2
                    exact depthInv_ok (by omega)
                  | err e env'' =>
                    have hle : env'.depth ≤ env''.depth :=
                      (ihFoldN rest env' _ _).of_eq h2
                    exact depthInv_err (by omega)
                  | panic k =>
                    have hp := (ihFoldN rest env' _ _).of_eq h2
                    exact fun h1 => hp (by omega)
                  | timeout => exact depthInv_timeout
              | err e env' => exact (ihETV a env).of_eq h
              | panic k => exact (ihETV a env).of_eq h
              | timeout => exact depthInv_timeout
      · -- *
        cases h : foldNumArgs n args env (.fin (.ofInt 1)) F64.mul with
        | ok x env' => exact depthInv_ok ((ihFoldN args env _ _).of_eq h)
        | err e env' => exact (ihFoldN args env _ _).of_eq h
        | panic k => exact (ihFoldN args env _ _).of_eq h
        | timeout => exact depthInv_timeout
      · -- div
        cases hc : valueCount args with
        | zero => exact depthInv_err_self
        | succ m =>
          cases m with
          | zero =>
            cases h : evalUnary n args env with
            | ok v env' =>
              dsimp only
              have hd : env'.depth = env.depth := (ihUn args env).of_eq h
              cases unsNumber v with
              | ok x => exact depthInv_ok hd
              | error e => exact depthInv_err (le_of_eq hd.symm)
            | err e env' => exact (ihUn args env).of_eq h
            | panic k => exact (ihUn args env).of_eq h
            | timeout => exact depthInv_timeout
          | succ m2 =>
            cases unsConsAny args with
            | error e => exact depthInv_err_self
            | ok pr =>
              obtain ⟨a, rest⟩ := pr
              dsimp only
              cases h : evalToValue n a env with
              | ok v env' =>
                dsimp only
                have hd : env'.depth = env.depth := (ihETV a env).of_eq h
                cases unsNumber v with
                | error e => exact depthInv_err (le_of_eq hd.symm)
                | ok dividend =>
                  dsimp only
                  cases h2 : foldNumArgs n rest env' (.fin (.ofInt 1)) F64.mul with
                  | ok s env'' =>
                    have hd2 : env''.depth = env'.depth :=
                      (ihFoldN rest env' _ _).of_eq h2
                    exact depthInv_ok (by omega)
                  | err e env'' =>
                    have hle : env'.depth ≤ env''.depth :=
                      (ihFoldN rest env' _ _).of_eq h2
                    exact depthInv_err (by omega)
                  | panic k =>
                    have hp := (ihFoldN rest env' _ _).of_eq h2
                    exact fun h1 => hp (by omega)
                  | timeout => exact depthInv_timeout
              | err e env' => exact (ihETV a env).of_eq h
              | panic k => exact (ihETV a env).of_eq h
              | timeout => exact depthInv_timeout
      · -- string-length
        cases h : evalUnary n args env with
        | ok v env' =>
          dsimp only
          have hd : env'.depth = env.depth := (ihUn args env).of_eq h
          cases unsString v with
          | ok s => exact depthInv_ok hd
          | error e => exact depthInv_err (le_of_eq hd.symm)
        | err e env' => exact (ihUn args env).of_eq h
        | panic k => exact (ihUn args env).of_eq h
        | timeout => exact depthInv_timeout
      · -- string-ref
        cases unsConsAny args with
        | error e => exact depthInv_err_self
        | ok pr =>
          obtain ⟨a, rest⟩ := pr
          dsimp only
          cases h : evalToValue n a env with
          | ok sv env1 =>
            dsimp only
            have hd1 : env1.depth = env.depth := (ihETV a env).of_eq h
            cases unsString sv with
            | error e => exact depthInv_err (le_of_eq hd1.symm)
            | ok s =>
              dsimp only
              cases h2 : evalUnary n rest env1 with
              | ok iv env2 =>
                dsimp only
                have hd2 : env2.depth = env1.depth := (ihUn rest env1).of_eq h2
                cases unsNumber iv with
                | error e => exact depthInv_err (by omega)
                | ok idx =>
                  dsimp only
                  cases s.data.get? idx.toUsize with
                  | some c => exact depthInv_ok (by omega)
                  | none => exact depthInv_err (by omega)
              | err e env2 =>
                have hle : env1.depth ≤ env2.depth := (ihUn rest env1).of_eq h2
                exact depthInv_err (by omega)
              | panic k =>
                have hp := (ihUn rest env1).of_eq h2
                exact fun h1 => hp (by omega)
              | timeout => exact depthInv_timeout
          | err e env1 => exact (ihETV a env).of_eq h
          | panic k => exact (ihETV a env).of_eq h
          | timeout => exact depthInv_timeout
      · -- substring
        cases unsConsAny args with
        | error e => exact depthInv_err_self
        | ok pr =>
          obtain ⟨a, rest⟩ := pr
          dsimp only
          cases h : evalToValue n a env with
          | ok sv env1 =>
            dsimp only
            have hd1 : env1.depth = env.depth := (ihETV a env).of_eq h
            cases unsString sv with
            | error e => exact depthInv_err (le_of_eq hd1.symm)
            | ok s =>
              dsimp only
              cases unsConsAny rest with
              | error e => exact depthInv_err (by omega)
              | ok pr2 =>
                obtain ⟨b, rest2⟩ := pr2
                dsimp only
                cases h2 : evalToValue n b env1 with
                | ok av env2 =>
                  dsimp only
                  have hd2 : env2.depth = env1.depth := (ihETV b env1).of_eq h2
                  cases unsNumber av with
                  | error e => exact depthInv_err (by omega)
                  | ok start =>
                    dsimp only
                    cases h3 : evalUnary n rest2 env2 with
                    | ok bv env3 =>
                      dsimp only
                      have hd3 : env3.depth = env2.depth :=
                        (ihUn rest2 env2).of_eq h3
                      cases unsNumber bv with
                      | error e => exact depthInv_err (by omega)
                      | ok stop =>
                        dsimp only
                        cases rustByteSlice s.data start.toUsize stop.toUsize with
                        | some cs => exact depthInv_ok (by omega)
                        | none => exact depthInv_panic_ne (by decide)
                    | err e env3 =>
                      have hle : env2.depth ≤ env3.depth :=
                        (ihUn rest2 env2).of_eq h3
                      exact depthInv_err (by omega)
                    | panic k =>
                      have hp := (ihUn rest2 env2).of_eq h3
                      exact fun h1 => hp (by omega)
                    | timeout => exact depthInv_timeout
                | err e env2 =>
                  have hle : env1.depth ≤ env2.depth := (ihETV b env1).of_eq h2
                  exact depthInv_err (by omega)
                | panic k =>
                  have hp := (ihETV b env1).of_eq h2
                  exact fun h1 => hp (by omega)
                | timeout => exact depthInv_timeout
          | err e env1 => exact (ihETV a env).of_eq h
          | panic k => exact (ihETV a env).of_eq h
          | timeout => exact depthInv_timeout
      · -- string-append
        cases h : foldStrArgs n args env "" with
        | ok s env' => exact depthInv_ok ((ihFoldS args env _).of_eq h)
        | err e env' => exact (ihFoldS args env _).of_eq h
        | panic k => exact (ihFoldS args env _).of_eq h
        | timeout => exact depthInv_timeout
      · -- unknown
        exact depthInv_panic_ne (by decide)
    have hApp : ∀ d name args env,
        LoopInv env d (evalApplication (n + 1) d name args env) := by
      intro d name args env
      simp only [evalApplication]
      cases h1 : evalToValue n name env with
      | ok p env1 =>
        have hd1 : env1.depth = env.depth := (ihETV name env).of_eq h1
        cases p
        case primitiveProcedure pn =>
          exact LoopInv.of_depthInv
            (((ihPrim pn args env1)).congr hd1) (by simp)
        case procedure params body caps =>
          dsimp only
          cases h2 : evalArgs n args env1 with
          | ok vs env2 =>
            dsimp only
            have hd2 : env2.depth = env1.depth := (ihArgs args env1).of_eq h2
            by_cases harity : vs.length = params.length
            · simp only [harity, if_true]
              have hpush := pushIfEntry_depth d env2
              have hp1 : env2.depth ≤ (pushIfEntry d env2).depth := by
                by_cases hq : env2.depth = d <;> simp [hq] at hpush <;> omega
              have hp2 : (pushIfEntry d env2).depth ≤ max env2.depth (d + 1) := by
                by_cases hq : env2.depth = d <;> simp [hq] at hpush <;> omega
              cases hb : bindAll (params.zip vs) (pushIfEntry d env2) with
              | none =>
                refine ⟨?_, by simp⟩
                intro hone
                obtain ⟨env4, hsome⟩ := @bindAll_total (params.zip vs)
                  (pushIfEntry d env2) (by omega)
                rw [hb] at hsome
                cases hsome
              | some env4 =>
                dsimp only
                have hd4 : env4.depth = (pushIfEntry d env2).depth :=
                  bindAll_eq_some _ hb
                cases hb2 : bindAll caps env4 with
                | none =>
                  refine ⟨?_, by simp⟩
                  intro hone
                  obtain ⟨env5, hsome⟩ := @bindAll_total caps env4
                    (by omega)
                  rw [hb2] at hsome
                  cases hsome
                | some env5 =>
                  dsimp only
                  have hd5 : env5.depth = env4.depth := bindAll_eq_some _ hb2
                  cases body.getLast? with
                  | none => exact ⟨by intro h1; decide, by simp⟩
                  | some last =>
                    dsimp only
                    cases h6 : evalSeq n body.dropLast env5 with
                    | ok u env6 =>
                      have hd6 : env6.depth = env5.depth :=
                        (ihSeq body.dropLast env5).of_eq h6
                      refine LoopInv.weaken (by omega) (by omega)
                        (ihLoop d last env6)
                    | err e env6 =>
                      have hle : env5.depth ≤ env6.depth :=
                        (ihSeq body.dropLast env5).of_eq h6
                      exact LoopInv.of_depthInv (depthInv_err (by omega)) (by simp)
                    | panic k =>
                      have hp := (ihSeq body.dropLast env5).of_eq h6
                      exact ⟨fun h1 => hp (by omega), by simp⟩
                    | timeout => exact ⟨trivial, by simp⟩
            · simp only [harity, if_false]
              exact LoopInv.of_depthInv (depthInv_err (by omega)) (by simp)
          | err e env2 =>
            have hle : env1.depth ≤ env2.depth := (ihArgs args env1).of_eq h2
            exact LoopInv.of_depthInv (depthInv_err (by omega)) (by simp)
          | panic k =>
            have hp := (ihArgs args env1).of_eq h2
            exact ⟨fun h1 => hp (by omega), by simp⟩
          | timeout => exact ⟨trivial, by simp⟩
        all_goals exact LoopInv.of_depthInv (depthInv_err (le_of_eq hd1.symm)) (by simp)
      | err e env1 =>
        exact LoopInv.of_depthInv ((ihETV name env).of_eq h1) (by simp)
      | panic k =>
        exact LoopInv.of_depthInv ((ihETV name env).of_eq h1) (by simp)
      | timeout => exact ⟨trivial, by simp⟩
    have hLoop : ∀ d v env, LoopInv env d (evalLoop (n + 1) d v env) := by
      intro d v env
      simp only [evalLoop]
      cases v with
      | symbol name =>
        dsimp only
        cases env.get name with
        | some x => exact LoopInv.of_depthInv depthInv_ok_self loopInv_singleton
        | none => exact LoopInv.of_depthInv depthInv_err_self loopInv_singleton
      | emptyList =>
        exact LoopInv.of_depthInv depthInv_err_self loopInv_singleton
      | pair name args =>
        dsimp only
        split
        · exact LoopInv.of_depthInv (ihDef args env) loopInv_singleton
        · exact LoopInv.of_depthInv (ihAnd args env) loopInv_singleton
        · exact LoopInv.of_depthInv (ihOr args env) loopInv_singleton
        · -- lambda
          cases evalLambda args env with
          | ok p => exact LoopInv.of_depthInv depthInv_ok_self loopInv_singleton
          | error e =>
            exact LoopInv.of_depthInv depthInv_err_self loopInv_singleton
        · -- quote
          cases uns1any args with
          | ok x => exact LoopInv.of_depthInv depthInv_ok_self loopInv_singleton
          | error e =>
            exact LoopInv.of_depthInv depthInv_err_self loopInv_singleton
        · -- if
          cases uns3any args with
          | error e =>
            exact LoopInv.of_depthInv depthInv_err_self loopInv_singleton
          | ok t =>
            obtain ⟨p, c, a⟩ := t
            dsimp only
            cases h : evalToValue n p env with
            | ok pv env' =>
              have hd : env'.depth = env.depth := (ihETV p env).of_eq h
              exact LoopInv.cons_of_inner hd
                (ihLoop d (if pv.toBool then c else a) env')
            | err e env' =>
              exact LoopInv.of_depthInv ((ihETV p env).of_eq h) loopInv_singleton
            | panic k =>
              exact LoopInv.of_depthInv ((ihETV p env).of_eq h) loopInv_singleton
            | timeout => exact ⟨trivial, loopInv_singleton⟩
        · -- application
          exact LoopInv.cons_of_inner rfl (ihApp d name args env)
      | void =>
        exact LoopInv.of_depthInv depthInv_ok_self loopInv_singleton
      | number x =>
        exact LoopInv.of_depthInv depthInv_ok_self loopInv_singleton
      | string s =>
        exact LoopInv.of_depthInv depthInv_ok_self loopInv_singleton
      | character c =>
        exact LoopInv.of_depthInv depthInv_ok_self loopInv_singleton
      | boolean b =>
        exact LoopInv.of_depthInv depthInv_ok_self loopInv_singleton
      | primitiveProcedure s =>
        exact LoopInv.of_depthInv depthInv_ok_self loopInv_singleton
      | procedure p b c =>
        exact LoopInv.of_depthInv depthInv_ok_self loopInv_singleton
    exact ⟨hEval, hETV, hLoop, hApp, hDef, hAnd, hOr, hSeq, hArgs, hUn,
      hFoldN, hFoldS, hPrim⟩

/-! ## Further pure lemmas -/

theorem Environment.restore_self (env : Environment) :
    env.restore env.depth = env := by
  simp [Environment.restore, Environment.depth]

theorem Environment.bind_get_ne {env env' : Environment} {m : String}
    {v : Value} (h : env.bind m v = some env') {n : String} (hne : m ≠ n) :
    env'.get n = env.get n := by
  unfold Environment.bind at h
  cases hf : env.frames with
  | nil => rw [hf] at h; cases h
  | cons f rest =>
    rw [hf] at h
    cases h
    simp [Environment.get, Environment.get.go, frameGet, hne, hf]

theorem bindAll_get_ne : ∀ (ps : List (String × Value)) {env env' : Environment}
    {n : String}, (∀ p ∈ ps, p.1 ≠ n) → bindAll ps env = some env' →
    env'.get n = env.get n := by
  intro ps
  induction ps with
  | nil => intro env env' n _ h; cases h; rfl
  | cons p rest ih =>
    intro env env' n hne h
    unfold bindAll at h
    cases hb : env.bind p.1 p.2 with
    | none => rw [hb] at h; cases h
    | some env₁ =>
      rw [hb] at h
      rw [ih (fun q hq => hne q (List.mem_cons_of_mem p hq)) h,
        Environment.bind_get_ne hb (hne p (List.mem_cons_self p rest))]

/-- The result of `evalAnd` and `evalOr` on the success path is always a
boolean (never the operand's own value). -/
theorem evalAnd_evalOr_ok_boolean : ∀ (fuel : Nat) (args : Value)
    (env : Environment) (v : Value) (env' : Environment),
    (evalAnd fuel args env = .ok v env' →
      v = .boolean true ∨ v = .boolean false) ∧
    (evalOr fuel args env = .ok v env' →
      v = .boolean true ∨ v = .boolean false) := by
  intro fuel
  induction fuel with
  | zero =>
    intro args env v env'
    constructor <;> intro h <;> simp [evalAnd, evalOr] at h
  | succ n ih =>
    intro args env v env'
    constructor
    · intro h
      cases args
      case emptyList =>
        simp only [evalAnd] at h
        cases h <;> exact Or.inl rfl
      case pair a rest =>
        simp only [evalAnd] at h
        cases ha : evalToValue n a env
        case ok w env₁ =>
          rw [ha] at h
          dsimp only at h
          by_cases hw : w.toBool = true
          · rw [if_pos hw] at h
            exact (ih rest env₁ v env').1 h
          · rw [if_neg hw] at h
            cases h <;> exact Or.inr rfl
        case err e env₁ => rw [ha] at h; dsimp only at h; cases h
        case panic k => rw [ha] at h; dsimp only at h; cases h
        case timeout => rw [ha] at h; dsimp only at h; cases h
      all_goals simp [evalAnd] at h
    · intro h
      cases args
      case emptyList =>
        simp only [evalOr] at h
        cases h <;> exact Or.inr rfl
      case pair a rest =>
        simp only [evalOr] at h
        cases ha : evalToValue n a env
        case ok w env₁ =>
          rw [ha] at h
          dsimp only at h
          by_cases hw : w.toBool = true
          · rw [if_pos hw] at h
            cases h <;> exact Or.inl rfl
          · rw [if_neg hw] at h
            exact (ih rest env₁ v env').2 h
        case err e env₁ => rw [ha] at h; dsimp only at h; cases h
        case panic k => rw [ha] at h; dsimp only at h; cases h
        case timeout => rw [ha] at h; dsimp only at h; cases h
      all_goals simp [evalOr] at h

/-- C1 (counterexample): `((lambda (x) y) 1)` fails with undefined-variable
`y` AFTER the call frame binding `x` was pushed; the error return skips
`env.restore`, so `eval` hands back a two-deep stack although it started from
the one-deep default environment.  This refutes the claim that the scope
stack is truncated back to the entry depth on every exit, error included. -/
theorem eval_error_exit_leaks_frame :
    defaultEnv.depth = 1 ∧
    eval 20 leakProg defaultEnv = .err (.undefinedVariable "y") leakEnv ∧
    leakEnv.depth = 2 :=
  ⟨rfl, rfl, rfl⟩

/-- C1 (amended): `eval` truncates the scope stack back to the entry depth on
every SUCCESSFUL exit; on an error exit the restore is skipped, and the stack
is at least as deep as at entry (frames pushed during the call may leak, and
no frame that existed at entry is removed). -/
theorem eval_restore_on_success_only (fuel : Nat) (v : Value)
    (env : Environment) :
    (∀ r env', eval fuel v env = .ok r env' → env'.depth = env.depth) ∧
    (∀ e env', eval fuel v env = .err e env' → env.depth ≤ env'.depth) := by
  have h := (evalDepth_master fuel).1 v env
  constructor
  · intro r env' he
    rw [he] at h
    exact h
  · intro e env' he
    rw [he] at h
    exact h

/-- Witness for `eval_restore_on_success_only` at a concrete input. -/
theorem eval_restore_on_success_only_witness :
    eval 20 leakProg defaultEnv = .err (.undefinedVariable "y") leakEnv ∧
    defaultEnv.depth ≤ leakEnv.depth :=
  ⟨rfl, (eval_restore_on_success_only 20 leakProg defaultEnv).2
    (.undefinedVariable "y") leakEnv rfl⟩

/-- C6 (code bug): `(substring "abc" 0 10)` slices the backing string with an
out-of-range byte range, a Rust panic, not one of the closed set of error
kinds. -/
theorem substring_out_of_range_panics :
    eval 20 (listToValue [.symbol "substring", .string "abc", numV 0, numV 10])
      defaultEnv = .panic .stringSlice :=
  rfl

/-- C10: starting from a nonempty scope stack (the default environment has
exactly one scope), evaluation never hits the `Environment::bind` unwrap
panic, every exit leaves the stack nonempty, and the CLI loop `runForms`
preserves stack nonemptiness across any sequence of forms. -/
theorem eval_preserves_nonempty_stack (fuel : Nat) (v : Value)
    (env : Environment) (h : 1 ≤ env.depth) :
    defaultEnv.depth = 1 ∧
    eval fuel v env ≠ .panic .emptyFrames ∧
    (∀ r env', eval fuel v env = .ok r env' → 1 ≤ env'.depth) ∧
    (∀ e env', eval fuel v env = .err e env' → 1 ≤ env'.depth) ∧
    (∀ vs env', runForms fuel vs env = some env' → 1 ≤ env'.depth) := by
  have hm := (evalDepth_master fuel).1
  have haux : ∀ (vs : List Value) (env0 : Environment), 1 ≤ env0.depth →
      ∀ env', runForms fuel vs env0 = some env' → 1 ≤ env'.depth := by
    intro vs
    induction vs with
    | nil =>
      intro env0 h0 env' he
      cases he
      exact h0
    | cons w rest ih =>
      intro env0 h0 env' he
      rw [runForms] at he
      cases hw : eval fuel w env0 with
      | ok r env₁ =>
        rw [hw] at he
        refine ih env₁ ?_ env' he
        have := hm w env0
        rw [hw] at this
        have h2 : env₁.depth = env0.depth := this
        omega
      | err e env₁ =>
        rw [hw] at he
        refine ih env₁ ?_ env' he
        have := hm w env0
        rw [hw] at this
        have h2 : env0.depth ≤ env₁.depth := this
        omega
      | panic k => rw [hw] at he; cases he
      | timeout => rw [hw] at he; cases he
  refine ⟨rfl, ?_, ?_, ?_, fun vs => haux vs env h⟩
  · intro hp
    have := hm v env
    rw [hp] at this
    exact this h rfl
  · intro r env' he
    have := hm v env
    rw [he] at this
    have h2 : env'.depth = env.depth := this
    omega
  · intro e env' he
    have := hm v env
    rw [he] at this
    have h2 : env.depth ≤ env'.depth := this
    omega

/-- Witness for `eval_preserves_nonempty_stack` at a concrete input. -/
theorem eval_preserves_nonempty_stack_witness :
    1 ≤ defaultEnv.depth ∧ 1 ≤ c10Env.depth :=
  ⟨by decide,
   (eval_preserves_nonempty_stack 30 (numV 0) defaultEnv (by decide)).2.2.2.2
     c10Forms c10Env rfl⟩

/-- C5: within one `evaluate` invocation with entry depth `d` and at most one
frame already pushed, no new scope is pushed above `d + 1`: the depth at the
start of every iteration of the dispatch loop stays at most `d + 1` (the
frame pushed on the first closure application is reused by every tail call);
`pushIfEntry` pushes nothing when the depth differs from the entry depth; and
a successful call (self-tail-recursive or not) leaves the scope-stack depth
exactly as it was before the call. -/
theorem evalLoop_single_push_and_restore (fuel d : Nat) (v : Value)
    (env : Environment) (hentry : env.depth ≤ d + 1) :
    (∀ x ∈ (evalLoop fuel d v env).2, x ≤ d + 1) ∧
    (∀ env', env'.depth ≠ d → pushIfEntry d env' = env') ∧
    (∀ r env', eval fuel v env = .ok r env' → env'.depth = env.depth) := by
  refine ⟨?_, ?_, ?_⟩
  · intro x hx
    have h := ((evalDepth_master fuel).2.2.1 d v env).2 x hx
    exact le_trans h (max_le hentry (le_refl _))
  · intro env' hne
    unfold pushIfEntry
    rw [if_neg hne]
  · intro r env' he
    have h := (evalDepth_master fuel).1 v env
    rw [he] at h
    exact h

/-- Witness for `evalLoop_single_push_and_restore`: running the
self-tail-recursive countdown to completion leaves the depth unchanged. -/
theorem evalLoop_single_push_and_restore_witness :
    tailEnv.depth ≤ 1 + 1 ∧
    eval 100 countdownCall tailEnv = .ok (numV 0) tailEnv ∧
    tailEnv.depth = tailEnv.depth :=
  ⟨by decide, rfl,
   (evalLoop_single_push_and_restore 100 1 countdownCall tailEnv (by decide)).2.2
     (numV 0) tailEnv rfl⟩

/-- C7: `-` and `/` are variadic: with zero operands they fail with
incorrect-arity(1, 0); with one operand they return its negation and its
reciprocal (`1.0 / x`) respectively; and `(/ 1 0)` evaluates to positive
floating-point infinity (neither an arity nor a type error). -/
theorem sub_div_variadic_semantics :
    (∀ (fuel : Nat) (env : Environment),
      applyPrimitive (fuel + 1) "-" .emptyList env
        = .err (.incorrectArity 1 0) env) ∧
    (∀ (fuel : Nat) (env : Environment),
      applyPrimitive (fuel + 1) "/" .emptyList env
        = .err (.incorrectArity 1 0) env) ∧
    (∀ (fuel : Nat) (env : Environment) (x : F64),
      applyPrimitive (fuel + 5) "-" (listToValue [.number x]) env
        = .ok (.number x.neg) env) ∧
    (∀ (fuel : Nat) (env : Environment) (x : F64),
      applyPrimitive (fuel + 5) "/" (listToValue [.number x]) env
        = .ok (.number ((F64.fin (.ofInt 1)).div x)) env) ∧
    eval 20 (listToValue [.symbol "/", numV 1, numV 0]) defaultEnv
      = .ok (.number (.inf false)) defaultEnv := by
  have hu : ∀ (fuel : Nat) (env : Environment) (x : F64),
      evalUnary (fuel + 4) (listToValue [.number x]) env
        = .ok (.number x) env := by
    intro fuel env x
    show evalToValue (fuel + 3) (.number x) env = .ok (.number x) env
    have he : eval (fuel + 2) (.number x) env = .ok (.number x) env := by
      show (match (evalLoop (fuel + 1) env.depth (.number x) env).1 with
        | .ok r env' => Res.ok r (env'.restore env.depth)
        | o => o) = Res.ok (.number x) env
      have hl : (evalLoop (fuel + 1) env.depth (.number x) env).1
          = .ok (.number x) env := rfl
      rw [hl]
      dsimp only
      rw [Environment.restore_self]
    show (match eval (fuel + 2) (.number x) env with
      | .ok r env' =>
        match r with
        | .void => Res.err (.expectedValue (.number x)) env'
        | r => Res.ok r env'
      | o => o) = Res.ok (.number x) env
    rw [he]
  refine ⟨fun fuel env => rfl, fun fuel env => rfl, ?_, ?_, rfl⟩
  · intro fuel env x
    show (match evalUnary (fuel + 4) (listToValue [.number x]) env with
      | .ok v env' =>
        match unsNumber v with
        | .ok y => Res.ok (Value.number y.neg) env'
        | .error e => Res.err e env'
      | .err e env' => Res.err e env'
      | .panic k => Res.panic k
      | .timeout => Res.timeout) = Res.ok (.number x.neg) env
    rw [hu]
    rfl
  · intro fuel env x
    show (match evalUnary (fuel + 4) (listToValue [.number x]) env with
      | .ok v env' =>
        match unsNumber v with
        | .ok y => Res.ok (Value.number ((F64.fin (.ofInt 1)).div y)) env'
        | .error e => Res.err e env'
      | .err e env' => Res.err e env'
      | .panic k => Res.panic k
      | .timeout => Res.timeout)
      = Res.ok (.number ((F64.fin (.ofInt 1)).div x)) env
    rw [hu]
    rfl

/-- C8: `and` and `or` evaluate operands left to right, demanding a value
from each; `and` returns `#f` at the first falsy operand (the remaining
operands never appear in the result) and `#t` when none is falsy; `or`
returns `#t` at the first truthy operand and `#f` when none is truthy; a
successful result is always a boolean, never the operand's own value; an
operand's error propagates; and the evaluator loop dispatches `(and ...)` /
`(or ...)` head symbols to these special forms. -/
theorem and_or_short_circuit_semantics :
    (∀ (fuel : Nat) (env : Environment),
      evalAnd (fuel + 1) .emptyList env = .ok (.boolean true) env) ∧
    (∀ (fuel : Nat) (env : Environment),
      evalOr (fuel + 1) .emptyList env = .ok (.boolean false) env) ∧
    (∀ (fuel : Nat) (env : Environment) (a rest v : Value)
        (env' : Environment), evalToValue fuel a env = .ok v env' →
      v.toBool = false →
      evalAnd (fuel + 1) (.pair a rest) env = .ok (.boolean false) env') ∧
    (∀ (fuel : Nat) (env : Environment) (a rest v : Value)
        (env' : Environment), evalToValue fuel a env = .ok v env' →
      v.toBool = true →
      evalAnd (fuel + 1) (.pair a rest) env = evalAnd fuel rest env') ∧
    (∀ (fuel : Nat) (env : Environment) (a rest : Value) (e : EvalError)
        (env' : Environment), evalToValue fuel a env = .err e env' →
      evalAnd (fuel + 1) (.pair a rest) env = .err e env') ∧
    (∀ (fuel : Nat) (env : Environment) (a rest v : Value)
        (env' : Environment), evalToValue fuel a env = .ok v env' →
      v.toBool = true →
      evalOr (fuel + 1) (.pair a rest) env = .ok (.boolean true) env') ∧
    (∀ (fuel : Nat) (env : Environment) (a rest v : Value)
        (env' : Environment), evalToValue fuel a env = .ok v env' →
      v.toBool = false →
      evalOr (fuel + 1) (.pair a rest) env = evalOr fuel rest env') ∧
    (∀ (fuel : Nat) (env : Environment) (a rest : Value) (e : EvalError)
        (env' : Environment), evalToValue fuel a env = .err e env' →
      evalOr (fuel + 1) (.pair a rest) env = .err e env') ∧
    (∀ (fuel : Nat) (args : Value) (env : Environment) (v : Value)
        (env' : Environment), evalAnd fuel args env = .ok v env' →
      v = .boolean true ∨ v = .boolean false) ∧
    (∀ (fuel : Nat) (args : Value) (env : Environment) (v : Value)
        (env' : Environment), evalOr fuel args env = .ok v env' →
      v = .boolean true ∨ v = .boolean false) ∧
    (∀ (fuel d : Nat) (args : Value) (env : Environment),
      evalLoop (fuel + 1) d (.pair (.symbol "and") args) env
        = (evalAnd fuel args env, [env.depth])) ∧
    (∀ (fuel d : Nat) (args : Value) (env : Environment),
      evalLoop (fuel + 1) d (.pair (.symbol "or") args) env
        = (evalOr fuel args env, [env.depth])) := by
  refine ⟨fun fuel env => rfl, fun fuel env => rfl, ?_, ?_, ?_, ?_, ?_, ?_,
    fun fuel args env v env' h => (evalAnd_evalOr_ok_boolean fuel args env v env').1 h,
    fun fuel args env v env' h => (evalAnd_evalOr_ok_boolean fuel args env v env').2 h,
    fun fuel d args env => rfl, fun fuel d args env => rfl⟩
  · intro fuel env a rest v env' h hv
    show (match evalToValue fuel a env with
      | .ok v env' =>
        if v.toBool then evalAnd fuel rest env'
        else Res.ok (.boolean false) env'
      | o => o) = Res.ok (.boolean false) env'
    rw [h]
    dsimp only
    rw [hv]
    rfl
  · intro fuel env a rest v env' h hv
    show (match evalToValue fuel a env with
      | .ok v env' =>
        if v.toBool then evalAnd fuel rest env'
        else Res.ok (.boolean false) env'
      | o => o) = evalAnd fuel rest env'
    rw [h]
    dsimp only
    rw [hv]
    rfl
  · intro fuel env a rest e env' h
    show (match evalToValue fuel a env with
      | .ok v env' =>
        if v.toBool then evalAnd fuel rest env'
        else Res.ok (.boolean false) env'
      | o => o) = Res.err e env'
    rw [h]
  · intro fuel env a rest v env' h hv
    show (match evalToValue fuel a env with
      | .ok v env' =>
        if v.toBool then Res.ok (.boolean true) env'
        else evalOr fuel rest env'
      | o => o) = Res.ok (.boolean true) env'
    rw [h]
    dsimp only
    rw [hv]
    rfl
  · intro fuel env a rest v env' h hv
    show (match evalToValue fuel a env with
      | .ok v env' =>
        if v.toBool then Res.ok (.boolean true) env'
        else evalOr fuel rest env'
      | o => o) = evalOr fuel rest env'
    rw [h]
    dsimp only
    rw [hv]
    rfl
  · intro fuel env a rest e env' h
    show (match evalToValue fuel a env with
      | .ok v env' =>
        if v.toBool then Res.ok (.boolean true) env'
        else evalOr fuel rest env'
      | o => o) = Res.err e env'
    rw [h]

/-- Witness for `and_or_short_circuit_semantics`: a falsy first operand
short-circuits past an unbound-symbol operand without evaluating it. -/
theorem and_or_short_circuit_semantics_witness :
    evalToValue 10 (.boolean false) defaultEnv
      = .ok (.boolean false) defaultEnv ∧
    evalAnd 11 (.pair (.boolean false) (.pair (.symbol "nope") .emptyList))
      defaultEnv = .ok (.boolean false) defaultEnv :=
  ⟨rfl, and_or_short_circuit_semantics.2.2.1 10 defaultEnv (.boolean false)
    (.pair (.symbol "nope") .emptyList) (.boolean false) defaultEnv rfl rfl⟩

/-- C2 (counterexample): `eq?` equates a proper list with a LONGER list that
extends it (the zip stops at the shorter side), equates pairs whose improper
tails differ, and does not even equate a procedure value with itself. -/
theorem eqValue_shape_counterexample :
    eqValue (listToValue [numV 1]) (listToValue [numV 1, numV 2]) = true ∧
    listToValue [numV 1] ≠ listToValue [numV 1, numV 2] ∧
    eqValue (.pair (numV 1) (numV 2)) (.pair (numV 1) (numV 3)) = true ∧
    numV 2 ≠ numV 3 ∧
    eqValue (.procedure [] [numV 0] []) (.procedure [] [numV 0] []) = false := by
  refine ⟨rfl, ?_, rfl, ?_, rfl⟩
  · intro h
    simp [listToValue] at h
  · intro h
    simp [numV, Q.ofInt] at h

/-- `eqTail` is exactly the `zip`/`all` traversal of the two item lists. -/
theorem eqTail_zip : ∀ (b d : Value),
    eqTail b d = ((valueItems b).zip (valueItems d)).all eqItemsStep
  | .emptyList, d => by simp [eqTail, valueItems]
  | .pair a b', .emptyList => by simp [eqTail, valueItems]
  | .pair a b', .pair c d' => by
    simp only [eqTail, valueItems, List.zip_cons_cons, List.all_cons,
      eqItemsStep]
    rw [eqTail_zip b' d']
  | .pair a b', .void => by simp [eqTail, valueItems, eqItemsStep]
  | .pair a b', .symbol s => by simp [eqTail, valueItems, eqItemsStep]
  | .pair a b', .number x => by simp [eqTail, valueItems, eqItemsStep]
  | .pair a b', .string s => by simp [eqTail, valueItems, eqItemsStep]
  | .pair a b', .character c => by simp [eqTail, valueItems, eqItemsStep]
  | .pair a b', .boolean bb => by simp [eqTail, valueItems, eqItemsStep]
  | .pair a b', .primitiveProcedure s => by
    simp [eqTail, valueItems, eqItemsStep]
  | .pair a b', .procedure p bo ca => by simp [eqTail, valueItems, eqItemsStep]
  | .void, d => by cases d <;> simp [eqTail, valueItems, eqItemsStep]
  | .symbol s, d => by cases d <;> simp [eqTail, valueItems, eqItemsStep]
  | .number x, d => by cases d <;> simp [eqTail, valueItems, eqItemsStep]
  | .string s, d => by cases d <;> simp [eqTail, valueItems, eqItemsStep]
  | .character c, d => by cases d <;> simp [eqTail, valueItems, eqItemsStep]
  | .boolean b, d => by cases d <;> simp [eqTail, valueItems, eqItemsStep]
  | .primitiveProcedure s, d => by
    cases d <;> simp [eqTail, valueItems, eqItemsStep]
  | .procedure p bo ca, d => by
    cases d <;> simp [eqTail, valueItems, eqItemsStep]

/-- C2 (amended): on two pairs, `eq?` zips the two list-iteration item
sequences and requires every aligned item pair to agree — `Ok` items must be
`eq?`, an improper tail (`Err` item) agrees only with an improper tail, and
the zip stops at the first exhausted side; numbers compare by IEEE `==`; a
procedure value is `eq?` to nothing, itself included. -/
theorem eqValue_zip_characterization :
    (∀ a b c d : Value, eqValue (.pair a b) (.pair c d)
      = ((valueItems (.pair a b)).zip (valueItems (.pair c d))).all
          eqItemsStep) ∧
    (∀ (pr : List String) (bo : List Value) (ca : List (String × Value))
        (v : Value), eqValue (.procedure pr bo ca) v = false) ∧
    (∀ (pr : List String) (bo : List Value) (ca : List (String × Value))
        (v : Value), eqValue v (.procedure pr bo ca) = false) ∧
    (∀ x y : F64, eqValue (.number x) (.number y) = F64.ieeeEq x y) := by
  refine ⟨?_, ?_, ?_, fun x y => rfl⟩
  · intro a b c d
    show (eqValue a c && eqTail b d) = _
    simp only [valueItems, List.zip_cons_cons, List.all_cons, eqItemsStep]
    rw [eqTail_zip]
  · intro pr bo ca v
    cases v <;> rfl
  · intro pr bo ca v
    cases v <;> rfl

/-- C4 (counterexample): `(lambda () 'a)` built where `a` is bound captures
`a` although it only occurs inside a quote form, and `(lambda (x) (lambda (y)
y))` built where `y` is bound captures `y` (twice) although `y` occurs only
as a nested lambda's parameter and body.  The claim predicted no captures for
either. -/
theorem getCaptures_overcapture_counterexample :
    makeLambda .emptyList
      (listToValue [listToValue [.symbol "quote", .symbol "a"]]) c4Env
      = .ok (.procedure [] [listToValue [.symbol "quote", .symbol "a"]]
          [("a", numV 1)]) ∧
    makeLambda (listToValue [.symbol "x"])
      (listToValue [listToValue [.symbol "lambda",
        listToValue [.symbol "y"], .symbol "y"]]) c4YEnv
      = .ok (.procedure ["x"]
          [listToValue [.symbol "lambda", listToValue [.symbol "y"],
            .symbol "y"]]
          [("y", numV 5), ("y", numV 5)]) :=
  ⟨rfl, rfl⟩

/-- C4 (amended): the capture list records, in tree-walk order, one entry
`(s, v)` for EVERY occurrence of a symbol `s` anywhere in the body trees
(quote forms and nested lambda parameter lists included) with `s` not among
the declared parameters and `s` resolving to `v` in the defining environment
at construction time; occurrences that do not resolve are skipped. -/
theorem getCaptures_occurrence_characterization : ∀ (v : Value)
    (params : List String) (env : Environment)
    (acc : List (String × Value)),
    getCaptures v params env acc
      = acc ++ (symbolOccurrences v).filterMap
          (fun s => if params.contains s then none
                    else (env.get s).map (fun x => (s, x)))
  | .symbol s => by
    intro params env acc
    simp only [getCaptures, symbolOccurrences]
    by_cases hc : s ∈ params
    · simp [hc]
    · simp only [hc, if_false, List.filterMap]
      cases env.get s <;> simp [hc]
  | .pair car cdr => by
    intro params env acc
    simp only [getCaptures, symbolOccurrences, List.filterMap_append]
    rw [getCaptures_occurrence_characterization car,
      getCaptures_occurrence_characterization cdr, List.append_assoc]
  | .void => by intro params env acc; simp [getCaptures, symbolOccurrences]
  | .number x => by intro params env acc; simp [getCaptures, symbolOccurrences]
  | .string s => by intro params env acc; simp [getCaptures, symbolOccurrences]
  | .character c => by
    intro params env acc; simp [getCaptures, symbolOccurrences]
  | .boolean b => by intro params env acc; simp [getCaptures, symbolOccurrences]
  | .emptyList => by
    intro params env acc; simp [getCaptures, symbolOccurrences]
  | .primitiveProcedure s => by
    intro params env acc; simp [getCaptures, symbolOccurrences]
  | .procedure p b c => by
    intro params env acc; simp [getCaptures, symbolOccurrences]

/-- C9: a tail call (current depth differs from the entry depth `d`) does not
push and does not clear: it binds the callee's parameters and captures into
the caller's frame, and every name that is neither a parameter nor a capture
of the callee still resolves to exactly what it resolved to before, at the
unchanged depth — the environment in which the callee's body starts
evaluating. -/
theorem tailcall_reuses_frame_preserving_bindings (d : Nat)
    (env : Environment) (params : List String) (args : List Value)
    (caps : List (String × Value)) (n : String)
    (hne : env.depth ≠ d) (hp : n ∉ params)
    (hc : n ∉ caps.map Prod.fst) :
    pushIfEntry d env = env ∧
    ∀ env4 env5, bindAll (params.zip args) (pushIfEntry d env) = some env4 →
      bindAll caps env4 = some env5 →
      env5.get n = env.get n ∧ env5.depth = env.depth := by
  have hpush : pushIfEntry d env = env := by
    unfold pushIfEntry
    rw [if_neg hne]
  refine ⟨hpush, ?_⟩
  intro env4 env5 h4 h5
  rw [hpush] at h4
  constructor
  · rw [bindAll_get_ne caps ?hc5 h5, bindAll_get_ne (params.zip args) ?hc4 h4]
    case hc5 =>
      intro p hp5 heq
      exact hc (heq ▸ List.mem_map_of_mem Prod.fst hp5)
    case hc4 =>
      intro p hp4 heq
      exact hp (heq ▸ (List.of_mem_zip hp4).1)
  · rw [bindAll_eq_some caps h5, bindAll_eq_some _ h4]

/-- Witness for `tailcall_reuses_frame_preserving_bindings` at a concrete
caller environment. -/
theorem tailcall_reuses_frame_preserving_bindings_witness :
    callerEnv.depth ≠ 1 ∧
    (callerEnv.get "a" = callerEnv.get "a" ∧
      callerEnv.depth = callerEnv.depth) :=
  ⟨by decide,
   (tailcall_reuses_frame_preserving_bindings 1 callerEnv [] [] [] "a"
     (by decide) (by simp) (by simp)).2 callerEnv callerEnv rfl rfl⟩

/-- End-to-end consequence of the tail-call frame reuse: `h` never captured
or declared `a`, yet `(g)` evaluates to `42` because the tail call `(h)`
reuses `g`'s call frame where `(define a 42)` just bound `a`. -/
theorem tailcall_dynamic_visibility_demo :
    eval 50 (listToValue [.symbol "g"]) dynEnv = .ok (numV 42) dynEnv :=
  rfl

/-- `natDigitsAux` ignores the fuel as long as it exceeds the argument. -/
theorem natDigitsAux_fuel : ∀ fuel fuel' n, n < fuel → n < fuel' →
    natDigitsAux fuel n = natDigitsAux fuel' n
  | 0, _, _, h, _ => absurd h (Nat.not_lt_zero _)
  | _ + 1, 0, _, _, h' => absurd h' (Nat.not_lt_zero _)
  | fuel + 1, fuel' + 1, n, h, h' => by
    simp only [natDigitsAux]
    by_cases h10 : n < 10
    · simp [h10]
    · simp only [if_neg h10]
      have hd : n / 10 < n := Nat.div_lt_self (by omega) (by omega)
      rw [natDigitsAux_fuel fuel fuel' (n / 10) (by omega) (by omega)]

/-- Unfolding `natDigits` below ten. -/
theorem natDigits_lt10 (n : Nat) (h : n < 10) : natDigits n = [digitChar n] := by
  simp [natDigits, natDigitsAux, h]

/-- Unfolding `natDigits` at ten and above. -/
theorem natDigits_ge10 (n : Nat) (h : 10 ≤ n) :
    natDigits n = natDigits (n / 10) ++ [digitChar (n % 10)] := by
  have hd : n / 10 < n := Nat.div_lt_self (by omega) (by omega)
  show natDigitsAux (n + 1) n = _
  simp only [natDigitsAux, if_neg (by omega : ¬ n < 10)]
  rw [natDigitsAux_fuel n (n / 10 + 1) (n / 10) (by omega) (by omega)]
  rfl

/-- Folding digits from an arbitrary accumulator. -/
theorem digitsToNat_foldl (acc : Nat) (l : List Char) :
    List.foldl (fun a c => a * 10 + (c.toNat - '0'.toNat)) acc l
      = acc * 10 ^ l.length
        + List.foldl (fun a c => a * 10 + (c.toNat - '0'.toNat)) 0 l := by
  induction l generalizing acc with
  | nil => simp
  | cons c t ih =>
    simp only [List.foldl_cons, List.length_cons]
    rw [ih (acc * 10 + (c.toNat - '0'.toNat)), ih (0 * 10 + (c.toNat - '0'.toNat))]
    ring

/-- `digitsToNat` splits over append. -/
theorem digitsToNat_append (a b : List Char) :
    digitsToNat (a ++ b) = digitsToNat a * 10 ^ b.length + digitsToNat b := by
  simp only [digitsToNat, List.foldl_append]
  rw [digitsToNat_foldl]

/-- `digitsToNat` on a single digit below ten. -/
theorem digitsToNat_digitChar (k : Nat) (h : k < 10) :
    digitsToNat [digitChar k] = k := by
  interval_cases k <;> decide

/-- `natDigits` inverts to the number it displays. -/
theorem digitsToNat_natDigits (n : Nat) : digitsToNat (natDigits n) = n := by
  induction n using Nat.strong_induction_on with
  | _ n ih =>
    by_cases h : n < 10
    · rw [natDigits_lt10 n h, digitsToNat_digitChar n h]
    · have hd : n / 10 < n := Nat.div_lt_self (by omega) (by omega)
      rw [natDigits_ge10 n (by omega), digitsToNat_append, ih (n / 10) hd,
        digitsToNat_digitChar (n % 10) (by omega)]
      simp only [List.length_cons, List.length_nil]
      omega

/-- A digit character's numeric value and range. -/
theorem isDigit_toNat {c : Char} (h : c.isDigit = true) :
    48 ≤ c.toNat ∧ c.toNat ≤ 57 := by
  simp only [Char.isDigit, decide_eq_true_eq, Bool.and_eq_true] at h
  obtain ⟨h1, h2⟩ := h
  constructor
  · exact h1
  · exact h2

/-- `digitChar` produces digit characters. -/
theorem digitChar_isDigit (k : Nat) (h : k < 10) : (digitChar k).isDigit = true := by
  interval_cases k <;> decide

/-- Nonzero digits render as nonzero characters. -/
theorem digitChar_ne_zero (k : Nat) (h1 : 1 ≤ k) (h : k < 10) : digitChar k ≠ '0' := by
  interval_cases k <;> decide

/-- Every character of `natDigits` is a digit. -/
theorem natDigits_all_digit (n : Nat) : ∀ c ∈ natDigits n, c.isDigit = true := by
  induction n using Nat.strong_induction_on with
  | _ n ih =>
    by_cases h : n < 10
    · rw [natDigits_lt10 n h]
      intro c hc
      simp only [List.mem_singleton] at hc
      subst hc
      exact digitChar_isDigit n h
    · have hd : n / 10 < n := Nat.div_lt_self (by omega) (by omega)
      rw [natDigits_ge10 n (by omega)]
      intro c hc
      rcases List.mem_append.mp hc with hc | hc
      · exact ih (n / 10) hd c hc
      · simp only [List.mem_singleton] at hc
        subst hc
        exact digitChar_isDigit (n % 10) (by omega)

/-- `natDigits` is never empty. -/
theorem natDigits_ne_nil (n : Nat) : natDigits n ≠ [] := by
  by_cases h : n < 10
  · rw [natDigits_lt10 n h]; simp
  · rw [natDigits_ge10 n (by omega)]; simp

/-- The digit count bounds the number from above. -/
theorem natDigits_lt (n : Nat) : n < 10 ^ (natDigits n).length := by
  induction n using Nat.strong_induction_on with
  | _ n ih =>
    by_cases h : n < 10
    · rw [natDigits_lt10 n h]
      simpa using h
    · have hd : n / 10 < n := Nat.div_lt_self (by omega) (by omega)
      rw [natDigits_ge10 n (by omega)]
      have h1 := ih (n / 10) hd
      simp only [List.length_append, List.length_cons, List.length_nil, pow_succ]
      omega

/-- The digit count bounds a positive number from below. -/
theorem natDigits_ge (n : Nat) (h1 : 1 ≤ n) :
    10 ^ ((natDigits n).length - 1) ≤ n := by
  induction n using Nat.strong_induction_on with
  | _ n ih =>
    by_cases h : n < 10
    · rw [natDigits_lt10 n h]
      simpa using h1
    · have hd : n / 10 < n := Nat.div_lt_self (by omega) (by omega)
      rw [natDigits_ge10 n (by omega)]
      have h2 := ih (n / 10) hd (by omega)
      have h3 : (natDigits (n / 10)).length ≠ 0 :=
        fun hl => natDigits_ne_nil (n / 10) (List.eq_nil_of_length_eq_zero hl)
      simp only [List.length_append, List.length_cons, List.length_nil,
        Nat.add_zero, Nat.zero_add]
      have h4 : 10 ^ ((natDigits (n / 10)).length + 1 - 1)
          = 10 ^ ((natDigits (n / 10)).length - 1) * 10 := by
        rw [← pow_succ]
        congr 1
        omega
      omega

/-- The first character of `natDigits` of a positive number is a nonzero
digit. -/
theorem natDigits_head_ne_zero (n : Nat) (h1 : 1 ≤ n) :
    (natDigits n).head? ≠ some '0' := by
  induction n using Nat.strong_induction_on with
  | _ n ih =>
    by_cases h : n < 10
    · rw [natDigits_lt10 n h]
      simp only [List.head?_cons, Option.some.injEq]
      intro hc
      exact digitChar_ne_zero n h1 h (Option.some.inj hc)
    · have hd : n / 10 < n := Nat.div_lt_self (by omega) (by omega)
      rw [natDigits_ge10 n (by omega)]
      rw [List.head?_append_of_ne_nil _ (natDigits_ne_nil (n / 10))]
      exact ih (n / 10) hd (by omega)

/-- Characters are equal when their numeric values are. -/
theorem char_eq_of_toNat {a b : Char} (h : a.toNat = b.toNat) : a = b := by
  apply Char.ext
  apply UInt32.ext
  simpa [Char.toNat] using h

/-- `digitsToNat` of the empty string. -/
theorem digitsToNat_nil : digitsToNat [] = 0 := rfl

/-- The numeric value of a single character. -/
theorem digitsToNat_single (c : Char) :
    digitsToNat [c] = c.toNat - '0'.toNat := by
  simp [digitsToNat]

/-- Splitting one leading character off `digitsToNat`. -/
theorem digitsToNat_cons (c : Char) (t : List Char) :
    digitsToNat (c :: t)
      = (c.toNat - '0'.toNat) * 10 ^ t.length + digitsToNat t := by
  have h := digitsToNat_append [c] t
  simpa [digitsToNat_single] using h

/-- A digit string is below ten to its length. -/
theorem digitsToNat_lt (l : List Char) (h : ∀ c ∈ l, c.isDigit = true) :
    digitsToNat l < 10 ^ l.length := by
  induction l with
  | nil => simp [digitsToNat]
  | cons c t ih =>
    rw [digitsToNat_cons]
    have h1 := isDigit_toNat (h c (List.mem_cons_self c t))
    have h2 := ih (fun d hd => h d (List.mem_cons_of_mem c hd))
    have h3 : c.toNat - '0'.toNat ≤ 9 := by
      have : '0'.toNat = 48 := by decide
      omega
    simp only [List.length_cons, pow_succ]
    have h4 : (c.toNat - '0'.toNat) * 10 ^ t.length ≤ 9 * 10 ^ t.length :=
      Nat.mul_le_mul_right _ h3
    omega

/-- A digit string with nonzero head is at least ten to one less than its
length. -/
theorem digitsToNat_ge (c : Char) (t : List Char) (hc : c.isDigit = true)
    (h0 : c ≠ '0') : 10 ^ t.length ≤ digitsToNat (c :: t) := by
  rw [digitsToNat_cons]
  have h1 := isDigit_toNat hc
  have h2 : '0'.toNat = 48 := by decide
  have h3 : c.toNat ≠ 48 := fun h => h0 (char_eq_of_toNat (by omega))
  have h4 : 1 ≤ c.toNat - '0'.toNat := by omega
  have h5 : 1 * 10 ^ t.length ≤ (c.toNat - '0'.toNat) * 10 ^ t.length :=
    Nat.mul_le_mul_right _ h4
  omega

/-- `natDigits` always yields a valid `int(10)` token. -/
theorem natDigits_intTok (n : Nat) : IntTok (natDigits n) := by
  by_cases h : n = 0
  · subst h
    left
    rw [natDigits_lt10 0 (by omega)]
    rfl
  · right
    exact ⟨natDigits_ne_nil n, natDigits_all_digit n,
      natDigits_head_ne_zero n (by omega)⟩

/-- `takeWhile`/`dropWhile` over an append split at the first failing
character. -/
theorem takeWhile_dropWhile_append (p : Char → Bool) :
    ∀ (a b : List Char), (∀ c ∈ a, p c = true) →
      (∀ c, b.head? = some c → p c = false) →
      (a ++ b).takeWhile p = a ∧ (a ++ b).dropWhile p = b
  | [], b, _, hb => by
    cases b with
    | nil => exact ⟨rfl, rfl⟩
    | cons c t =>
      have := hb c rfl
      simp [List.takeWhile, List.dropWhile, this]
  | c :: a, b, ha, hb => by
    have hc := ha c (List.mem_cons_self c a)
    have ih := takeWhile_dropWhile_append p a b
      (fun d hd => ha d (List.mem_cons_of_mem c hd)) hb
    simp only [List.cons_append, List.takeWhile_cons, List.dropWhile_cons, hc,
      if_true]
    exact ⟨by rw [ih.1], by rw [ih.2]⟩

/-- `parseInt10` consumes exactly a valid token when what follows cannot
extend it. -/
theorem parseInt10_token (ds rest : List Char) (htok : IntTok ds)
    (hrest : ∀ c, rest.head? = some c → c.isDigit = false) :
    parseInt10 (ds ++ rest) = some (ds, rest) := by
  rcases htok with h | ⟨hne, hdig, hhd⟩
  · subst h
    rfl
  · cases ds with
    | nil => exact absurd rfl hne
    | cons c t =>
      have hc : c.isDigit = true := hdig c (List.mem_cons_self c t)
      have hc0 : ¬ c = '0' := fun h => hhd (by rw [h]; rfl)
      have hsplit := takeWhile_dropWhile_append Char.isDigit t rest
        (fun d hd => hdig d (List.mem_cons_of_mem c hd)) hrest
      simp only [List.cons_append, parseInt10, if_neg hc0, hc, if_true,
        hsplit.1, hsplit.2]

/-- `dropWhile` is the identity when the head fails the predicate. -/
theorem dropWhile_eq_self_of_head (p : Char → Bool) (l : List Char)
    (h : ∀ c, l.head? = some c → p c = false) : l.dropWhile p = l := by
  cases l with
  | nil => rfl
  | cons c t =>
    have := h c rfl
    simp [List.dropWhile, this]

/-- `str::trim` is the identity when neither end is whitespace. -/
theorem trimChars_eq_self (l : List Char)
    (h1 : ∀ c, l.head? = some c → rustWhitespace c = false)
    (h2 : ∀ c, l.getLast? = some c → rustWhitespace c = false) :
    trimChars l = l := by
  unfold trimChars
  rw [dropWhile_eq_self_of_head _ l h1,
    dropWhile_eq_self_of_head _ l.reverse (by
      intro c hc
      exact h2 c (by rwa [List.head?_reverse] at hc)),
    List.reverse_reverse]

/-- The boolean parser rejects text not starting with `#`. -/
theorem parseBoolean_none (c : Char) (t : List Char) (h : c ≠ '#') :
    parseBoolean (c :: t) = none := by
  have h' : ¬ ('#' = c) := fun h' => h h'.symm
  simp [parseBoolean, pJust, h']

/-- The character parser rejects text not starting with `#`. -/
theorem parseCharacter_none (c : Char) (t : List Char) (h : c ≠ '#') :
    parseCharacter (c :: t) = none := by
  have h' : ¬ ('#' = c) := fun h' => h h'.symm
  simp [parseCharacter, pJust, h']

/-- The number parser rejects text starting with a character that opens no
numeric form. -/
theorem parseNumber_none (c : Char) (t : List Char) (hdash : c ≠ '-')
    (hdot : c ≠ '.') (hdig : c.isDigit = false) :
    parseNumber (c :: t) = none := by
  simp only [parseNumber]
  split
  · next rest heq =>
    injection heq with h1 h2
    exact absurd h1 hdash
  · have h0 : ¬ (c = '0') := by
      intro h
      rw [h] at hdig
      exact absurd hdig (by decide)
    simp only [parseInt10, if_neg h0, hdig, Bool.false_eq_true, if_false]
    split
    · next r2 heq =>
      injection heq with h1 h2
      exact absurd h1 hdot
    · rfl

/-- The string parser rejects text not starting with a quote. -/
theorem parseStringLit_none (c : Char) (t : List Char) (h : c ≠ '"') :
    parseStringLit (c :: t) = none := by
  simp only [parseStringLit]
  split
  · next heq =>
    injection heq with h1 h2
    exact absurd h1 h
  · rfl

/-- The string body parser crosses plain characters up to the closing
quote. -/
theorem parseStringBody_plain :
    ∀ (l : List Char) (acc rest : List Char),
      (∀ c ∈ l, stringPlainChar c = true) →
      parseStringBody (l ++ '"' :: rest) acc
        = some (.string (String.mk (acc.reverse ++ l)), rest)
  | [], acc, rest, _ => by
    show parseStringBody ('\"' :: rest) acc = _
    rw [parseStringBody.eq_def]
    simp
  | c :: l, acc, rest, h => by
    have hc := h c (List.mem_cons_self c l)
    have hc1 : ¬ (c = '"') := by
      intro h'
      rw [h'] at hc
      exact absurd hc (by decide)
    have hc2 : ¬ (c = '\\') := by
      intro h'
      rw [h'] at hc
      exact absurd hc (by decide)
    have ih := parseStringBody_plain l (c :: acc) rest
      (fun d hd => h d (List.mem_cons_of_mem c hd))
    show parseStringBody (c :: (l ++ '\"' :: rest)) acc = _
    rw [parseStringBody.eq_def]
    simp only [if_neg hc1, if_neg hc2]
    rw [ih]
    simp [List.reverse_cons, List.append_assoc]

/-- One unfolding step of the expression parser. -/
theorem parseExpr_step (fuel : Nat) (s : List Char) :
    parseExpr (fuel + 1) s =
      match parseBoolean s with
      | some r => some r
      | none =>
        match parseCharacter s with
        | some r => some r
        | none =>
          match parseNumber s with
          | some r => some r
          | none =>
            match parseStringLit s with
            | some r => some r
            | none =>
              match parseSymbol s with
              | some r => some r
              | none =>
                match parseQuote fuel s with
                | some r => some r
                | none => parseList fuel s := by
  rw [parseExpr.eq_def]

/-- Round trip for string values whose contents contain neither a quote nor
a backslash. -/
theorem string_roundtrip_aux (l : List Char)
    (h : ∀ c ∈ l, stringPlainChar c = true) :
    parseOne (String.mk (displayValue (.string (String.mk l))))
      = some (.string (String.mk l)) := by
  have hd : displayValue (.string (String.mk l)) = '"' :: (l ++ ['"']) := rfl
  rw [hd]
  clear hd
  simp only [parseOne]
  have htrim : trimChars ('"' :: (l ++ ['"'])) = '"' :: (l ++ ['"']) := by
    apply trimChars_eq_self
    · intro c hc
      injection hc with hc
      rw [← hc]
      decide
    · intro c hc
      rw [show ('"' :: (l ++ ['"'])) = ('"' :: l) ++ ['"'] by simp,
        List.getLast?_concat] at hc
      injection hc with hc
      rw [← hc]
      decide
  rw [htrim]
  rw [show 3 * ('"' :: (l ++ ['"'])).length + 3
      = (3 * ('"' :: (l ++ ['"'])).length + 2) + 1 from rfl, parseExpr_step]
  rw [parseBoolean_none _ _ (by decide), parseCharacter_none _ _ (by decide),
    parseNumber_none _ _ (by decide) (by decide) (by decide)]
  have hstr : parseStringLit ('"' :: (l ++ ['"']))
      = some (.string (String.mk l), []) := by
    rw [parseStringLit.eq_def]
    have := parseStringBody_plain l [] [] h
    simp only [List.append_nil] at this ⊢
    rw [show (l ++ ['"']) = l ++ '"' :: [] from rfl, this]
    simp
  rw [hstr]

/-- The character parser on a displayed character. -/
theorem parseCharacter_single (c : Char) :
    parseCharacter ['#', '\\', c] = some (.character c, []) := by
  have h1 : pJust ['#', '\\'] ['#', '\\', c] = some [c] := rfl
  have h2 : pJust ['n', 'e', 'w', 'l', 'i', 'n', 'e'] [c] = none := by
    by_cases hn : ('n' : Char) = c
    · simp [pJust, hn]
    · simp [pJust, hn]
  have h3 : pJust ['s', 'p', 'a', 'c', 'e'] [c] = none := by
    by_cases hs : ('s' : Char) = c
    · simp [pJust, hs]
    · simp [pJust, hs]
  simp only [parseCharacter, h1, h2, h3]

/-- Round trip for non-whitespace characters. -/
theorem character_roundtrip_aux (c : Char) (hws : rustWhitespace c = false) :
    parseOne (String.mk (displayValue (.character c)))
      = some (.character c) := by
  have hd : displayValue (.character c) = ['#', '\\', c] := rfl
  rw [hd]
  simp only [parseOne]
  have htrim : trimChars ['#', '\\', c] = ['#', '\\', c] := by
    apply trimChars_eq_self
    · intro d hd'
      injection hd' with hd'
      rw [← hd']
      decide
    · intro d hd'
      rw [show (['#', '\\', c] : List Char) = ['#', '\\'] ++ [c] from rfl,
        List.getLast?_concat] at hd'
      injection hd' with hd'
      rw [← hd']
      exact hws
  rw [htrim]
  rw [show 3 * (['#', '\\', c] : List Char).length + 3
      = (3 * (['#', '\\', c] : List Char).length + 2) + 1 from rfl,
    parseExpr_step]
  have hb : parseBoolean ['#', '\\', c] = none := rfl
  rw [hb, parseCharacter_single]

/-- What membership in the unquoted symbol alphabet excludes. -/
theorem symbolChar_spec (c : Char) (h : symbolChar c = true) :
    c ≠ ' ' ∧ c ≠ '\t' ∧ c ≠ '\r' ∧ c ≠ '\n' ∧ c ≠ '|' ∧ c ≠ '(' ∧
      c ≠ ')' ∧ c ≠ '"' ∧ c ≠ ';' ∧ c ≠ '\'' ∧ c ≠ '#' := by
  simp only [symbolChar, Bool.not_eq_true', Bool.or_eq_false_iff,
    decide_eq_false_iff_not] at h
  tauto

/-- Round trip for nonempty unquoted symbols that are not also numeric
literals. -/
theorem symbol_bare_roundtrip_aux (l : List Char) (hne : l ≠ [])
    (hsym : ∀ c ∈ l, symbolChar c = true)
    (hws : ∀ c ∈ l, rustWhitespace c = false)
    (hnum : parseNumber l = none) :
    parseOne (String.mk (displayValue (.symbol (String.mk l))))
      = some (.symbol (String.mk l)) := by
  have hany : l.any rustWhitespace = false := by
    rw [List.any_eq_false]
    exact fun c hc => by simpa using hws c hc
  have hd : displayValue (.symbol (String.mk l)) = l := by
    have he : displayValue (.symbol (String.mk l))
        = if l.any rustWhitespace = true then '|' :: l ++ ['|'] else l := rfl
    rw [he, hany]
    simp
  rw [hd]
  simp only [parseOne]
  have htrim : trimChars l = l := by
    apply trimChars_eq_self
    · intro c hc
      exact hws c (List.mem_of_mem_head? hc)
    · intro c hc
      exact hws c (List.mem_of_mem_getLast? hc)
  rw [htrim]
  cases l with
  | nil => exact absurd rfl hne
  | cons c t =>
    have hc := symbolChar_spec c (hsym c (List.mem_cons_self c t))
    rw [show 3 * (c :: t).length + 3 = (3 * (c :: t).length + 2) + 1 from rfl,
      parseExpr_step]
    rw [parseBoolean_none c t hc.2.2.2.2.2.2.2.2.2.2,
      parseCharacter_none c t hc.2.2.2.2.2.2.2.2.2.2, hnum,
      parseStringLit_none c t hc.2.2.2.2.2.2.2.1]
    have hsymb : parseSymbol (c :: t) = some (.symbol (String.mk (c :: t)), []) := by
      rw [parseSymbol.eq_def]
      split
      · next rest heq =>
        injection heq with h1 h2
        exact absurd h1 hc.2.2.2.2.1
      · have htake := takeWhile_dropWhile_append symbolChar (c :: t) [] hsym
          (by intro d hd'; simp at hd')
        simp only [List.append_nil] at htake
        rw [htake.1]
        rw [if_neg (by simp [List.isEmpty_iff])]
        rw [List.drop_length]
    rw [hsymb]

/-- Round trip for nonempty whitespace-containing bar-quoted symbols
without a bar or backslash. -/
theorem symbol_bar_roundtrip_aux (l : List Char) (hne : l ≠ [])
    (hbar : ∀ c ∈ l, barSymbolChar c = true)
    (hws : l.any rustWhitespace = true) :
    parseOne (String.mk (displayValue (.symbol (String.mk l))))
      = some (.symbol (String.mk l)) := by
  have hd : displayValue (.symbol (String.mk l)) = '|' :: (l ++ ['|']) := by
    have he : displayValue (.symbol (String.mk l))
        = if l.any rustWhitespace = true then '|' :: l ++ ['|'] else l := rfl
    rw [he, hws]
    simp
  rw [hd]
  simp only [parseOne]
  have htrim : trimChars ('|' :: (l ++ ['|'])) = '|' :: (l ++ ['|']) := by
    apply trimChars_eq_self
    · intro d hd'
      injection hd' with hd'
      rw [← hd']
      decide
    · intro d hd'
      rw [show ('|' :: (l ++ ['|'])) = ('|' :: l) ++ ['|'] by simp,
        List.getLast?_concat] at hd'
      injection hd' with hd'
      rw [← hd']
      decide
  rw [htrim]
  rw [show 3 * ('|' :: (l ++ ['|'])).length + 3
      = (3 * ('|' :: (l ++ ['|'])).length + 2) + 1 from rfl, parseExpr_step]
  rw [parseBoolean_none _ _ (by decide), parseCharacter_none _ _ (by decide),
    parseNumber_none _ _ (by decide) (by decide) (by decide),
    parseStringLit_none _ _ (by decide)]
  have hsymb : parseSymbol ('|' :: (l ++ ['|']))
      = some (.symbol (String.mk l), []) := by
    rw [parseSymbol.eq_def]
    have htake := takeWhile_dropWhile_append barSymbolChar l ['|'] hbar
      (by intro d hd'; injection hd' with hd'; rw [← hd']; decide)
    simp only [htake.1]
    rw [if_neg (by simp [List.isEmpty_iff, hne])]
    rw [List.drop_left]
    rfl
  rw [hsymb]

/-- Round trip for boolean literals. -/
theorem boolean_roundtrip_aux (b : Bool) :
    parseOne (String.mk (displayValue (.boolean b))) = some (.boolean b) := by
  cases b <;> rfl

/-- The bounded search returns the least index satisfying the divisibility
test, provided one lies within the fuel. -/
theorem findPow10Exp_spec (d : Nat) : ∀ (fuel k : Nat),
    (∃ j, k ≤ j ∧ j < k + fuel ∧ 10 ^ j % d = 0) →
    10 ^ (findPow10Exp d k fuel) % d = 0 ∧ k ≤ findPow10Exp d k fuel ∧
      ∀ i, k ≤ i → i < findPow10Exp d k fuel → ¬ (10 ^ i % d = 0)
  | 0, k, h => by
    obtain ⟨j, h1, h2, _⟩ := h
    omega
  | fuel + 1, k, h => by
    by_cases hk : 10 ^ k % d = 0
    · refine ⟨?_, ?_, ?_⟩
      · simpa [findPow10Exp, hk] using hk
      · simp [findPow10Exp, hk]
      · intro i h1 h2
        simp [findPow10Exp, hk] at h2
        omega
    · obtain ⟨j, h1, h2, h3⟩ := h
      have hj : k + 1 ≤ j := by
        rcases Nat.eq_or_lt_of_le h1 with h | h
        · exact absurd (h ▸ h3) hk
        · omega
      have ih := findPow10Exp_spec d fuel (k + 1) ⟨j, hj, by omega, h3⟩
      refine ⟨?_, ?_, ?_⟩
      · simpa [findPow10Exp, hk] using ih.1
      · have := ih.2.1
        simp only [findPow10Exp, if_neg hk]
        omega
      · intro i hi1 hi2
        simp only [findPow10Exp, if_neg hk] at hi2
        rcases Nat.eq_or_lt_of_le hi1 with h | h
        · exact h ▸ hk
        · exact ih.2.2 i (by omega) hi2

/-- A divisor of a power of ten is at least two to the least such power. -/
theorem two_pow_minExp_le (d : Nat) : ∀ (e : Nat), 1 ≤ d → d ∣ 10 ^ e →
    (∀ j < e, ¬ d ∣ 10 ^ j) → 2 ^ e ≤ d := by
  induction d using Nat.strong_induction_on with
  | _ d ih =>
    intro e h1 h2 h3
    match e with
    | 0 => simpa using h1
    | j + 1 =>
      have hgne : Nat.gcd d 10 ≠ 1 := by
        intro hco
        have hco' : Nat.Coprime d (10 ^ (j + 1)) :=
          Nat.Coprime.pow_right _ hco
        have hd1 : d = 1 := hco'.eq_one_of_dvd h2
        exact h3 0 (by omega) (by simp [hd1])
      have hgpos : 0 < Nat.gcd d 10 := Nat.gcd_pos_of_pos_right d (by omega)
      have hg2 : 2 ≤ Nat.gcd d 10 := by omega
      have hgd : Nat.gcd d 10 ∣ d := Nat.gcd_dvd_left d 10
      have hg10 : Nat.gcd d 10 ∣ 10 := Nat.gcd_dvd_right d 10
      have hdeq : d / Nat.gcd d 10 * Nat.gcd d 10 = d := Nat.div_mul_cancel hgd
      have h10eq : 10 / Nat.gcd d 10 * Nat.gcd d 10 = 10 := Nat.div_mul_cancel hg10
      have hdvd' : d / Nat.gcd d 10 ∣ 10 ^ j := by
        obtain ⟨t, ht⟩ := h2
        have ht' : 10 ^ j * (10 / Nat.gcd d 10) * Nat.gcd d 10
            = d / Nat.gcd d 10 * t * Nat.gcd d 10 := by
          have : 10 ^ (j + 1) = 10 ^ j * 10 := pow_succ 10 j
          calc 10 ^ j * (10 / Nat.gcd d 10) * Nat.gcd d 10
              = 10 ^ j * (10 / Nat.gcd d 10 * Nat.gcd d 10) := by ring
            _ = 10 ^ j * 10 := by rw [h10eq]
            _ = d * t := by rw [← this, ht]
            _ = d / Nat.gcd d 10 * Nat.gcd d 10 * t := by rw [hdeq]
            _ = d / Nat.gcd d 10 * t * Nat.gcd d 10 := by ring
        have hmul : 10 ^ j * (10 / Nat.gcd d 10) = d / Nat.gcd d 10 * t :=
          Nat.eq_of_mul_eq_mul_right hgpos ht'
        have hcop : Nat.Coprime (d / Nat.gcd d 10) (10 / Nat.gcd d 10) :=
          Nat.coprime_div_gcd_div_gcd hgpos
        exact hcop.dvd_of_dvd_mul_right ⟨t, hmul⟩
      have hmin' : ∀ i < j, ¬ d / Nat.gcd d 10 ∣ 10 ^ i := by
        intro i hi hdvd
        apply h3 (i + 1) (by omega)
        have : d / Nat.gcd d 10 * Nat.gcd d 10 ∣ 10 ^ i * 10 :=
          mul_dvd_mul hdvd hg10
        rw [hdeq] at this
        rwa [← pow_succ] at this
      have hdpos' : 1 ≤ d / Nat.gcd d 10 :=
        Nat.div_pos (Nat.le_of_dvd (by omega) hgd) hgpos
      have hdlt : d / Nat.gcd d 10 < d := Nat.div_lt_self (by omega) hg2
      have hih := ih (d / Nat.gcd d 10) hdlt j hdpos' hdvd' hmin'
      calc 2 ^ (j + 1) = 2 ^ j * 2 := pow_succ 2 j
        _ ≤ d / Nat.gcd d 10 * Nat.gcd d 10 := Nat.mul_le_mul hih hg2
        _ = d := hdeq

/-- `mkRat` of zero is the canonical zero. -/
theorem mkRat_zero (d : Nat) (hd : d ≠ 0) : Q.mkRat 0 d = ⟨0, 1⟩ := by
  simp [Q.mkRat, hd, Nat.div_self (Nat.pos_of_ne_zero hd)]

/-- `mkRat` of a nonnegative numerator, explicitly. -/
theorem mkRat_ofNat (n d : Nat) (hd : d ≠ 0) :
    Q.mkRat (n : Int) d
      = ⟨((n / Nat.gcd n d : Nat) : Int), d / Nat.gcd n d⟩ := by
  simp only [Q.mkRat, if_neg hd, Int.natAbs_ofNat]
  exact congrArg (fun z => Q.mk z _) rfl

/-- `mkRat` of a negated numerator, explicitly. -/
theorem mkRat_negOfNat (n d : Nat) (hd : d ≠ 0) :
    Q.mkRat (-(n : Int)) d
      = ⟨-((n / Nat.gcd n d : Nat) : Int), d / Nat.gcd n d⟩ := by
  simp only [Q.mkRat, if_neg hd, Int.natAbs_neg, Int.natAbs_ofNat]
  have hdvd : ((Nat.gcd n d : Nat) : Int) ∣ (n : Int) :=
    Int.natCast_dvd_natCast.mpr (Nat.gcd_dvd_left n d)
  rw [Int.neg_ediv_of_dvd hdvd]
  norm_cast

/-- `mkRat` cancels a common factor down to an already-normalized
fraction (nonnegative numerator). -/
theorem mkRat_cancel_pos (n' den c : Nat) (hden : den ≠ 0) (hc : c ≠ 0)
    (hcop : Nat.gcd n' den = 1) :
    Q.mkRat ((n' * c : Nat) : Int) (den * c) = ⟨(n' : Int), den⟩ := by
  have hg : Nat.gcd (n' * c) (den * c) = c := by
    rw [Nat.gcd_mul_right, hcop, Nat.one_mul]
  rw [mkRat_ofNat _ _ (by positivity), hg,
    Nat.mul_div_cancel n' (Nat.pos_of_ne_zero hc),
    Nat.mul_div_cancel den (Nat.pos_of_ne_zero hc)]

/-- `mkRat` cancels a common factor down to an already-normalized
fraction (negated numerator). -/
theorem mkRat_cancel_neg (n' den c : Nat) (hden : den ≠ 0) (hc : c ≠ 0)
    (hcop : Nat.gcd n' den = 1) :
    Q.mkRat (-((n' * c : Nat) : Int)) (den * c) = ⟨-(n' : Int), den⟩ := by
  have hg : Nat.gcd (n' * c) (den * c) = c := by
    rw [Nat.gcd_mul_right, hcop, Nat.one_mul]
  rw [mkRat_negOfNat _ _ (by positivity), hg,
    Nat.mul_div_cancel n' (Nat.pos_of_ne_zero hc),
    Nat.mul_div_cancel den (Nat.pos_of_ne_zero hc)]

/-- The digit-string length of a number squeezed between two powers of
ten. -/
theorem natDigits_length_eq (m k : Nat) (hlo : 10 ^ (k - 1) ≤ m)
    (hhi : m < 10 ^ k) (hk : 1 ≤ k) : (natDigits m).length = k := by
  have h1 := natDigits_lt m
  have h2 := natDigits_ge m (le_trans (Nat.one_le_two_pow.trans
    (by exact Nat.pow_le_pow_left (by omega) _)) hlo)
  by_contra hne
  rcases Nat.lt_or_ge (natDigits m).length k with h | h
  · have : 10 ^ (natDigits m).length ≤ 10 ^ (k - 1) :=
      Nat.pow_le_pow_right (by omega) (by omega)
    omega
  · have hgt : k < (natDigits m).length := by omega
    have : 10 ^ k ≤ 10 ^ ((natDigits m).length - 1) :=
      Nat.pow_le_pow_right (by omega) (by omega)
    omega

/-- Digits of a number split at a `k`-digit remainder. -/
theorem natDigits_split : ∀ (k : Nat), 1 ≤ k → ∀ (a r : Nat), 1 ≤ a →
    10 ^ (k - 1) ≤ r → r < 10 ^ k →
    natDigits (a * 10 ^ k + r) = natDigits a ++ natDigits r
  | 0, hk => absurd hk (by omega)
  | 1, _ => by
    intro a r ha hlo hhi
    simp only [pow_one] at hhi ⊢
    have hx : 10 ≤ a * 10 + r := by nlinarith
    rw [natDigits_ge10 _ hx]
    have hdiv : (a * 10 + r) / 10 = a := by omega
    have hmod : (a * 10 + r) % 10 = r := by omega
    rw [hdiv, hmod, natDigits_lt10 r hhi]
  | k + 2, _ => by
    intro a r ha hlo hhi
    have hk1 : 1 ≤ k + 1 := by omega
    have hpow : (10 : Nat) ^ (k + 2) = 10 ^ (k + 1) * 10 := pow_succ 10 (k + 1)
    have hrlo : 10 ^ (k + 2 - 1) = 10 ^ k * 10 := by
      rw [show k + 2 - 1 = k + 1 from rfl]
      exact pow_succ 10 k
    have hr10 : 10 ≤ r := by
      have : (10 : Nat) ^ k ≥ 1 := Nat.one_le_two_pow.trans
        (Nat.pow_le_pow_left (by omega) _)
      rw [hrlo] at hlo
      nlinarith
    have hx10 : 10 ≤ a * 10 ^ (k + 2) + r := by omega
    rw [natDigits_ge10 _ hx10]
    have hdiv : (a * 10 ^ (k + 2) + r) / 10 = a * 10 ^ (k + 1) + r / 10 := by
      rw [hpow, ← Nat.mul_assoc]
      omega
    have hmod : (a * 10 ^ (k + 2) + r) % 10 = r % 10 := by
      rw [hpow, ← Nat.mul_assoc]
      omega
    have hdlo : 10 ^ (k + 1 - 1) ≤ r / 10 := by
      rw [show k + 1 - 1 = k from rfl]
      rw [hrlo] at hlo
      omega
    have hdhi : r / 10 < 10 ^ (k + 1) := by
      rw [hpow] at hhi
      omega
    have ih := natDigits_split (k + 1) hk1 a (r / 10) ha hdlo hdhi
    rw [hdiv, hmod, ih, natDigits_ge10 r hr10, List.append_assoc]

/-- Distinct numeric values give distinct characters. -/
theorem char_ne_of_toNat_ne {c d : Char} (h : c.toNat ≠ d.toNat) : c ≠ d :=
  fun heq => h (congrArg Char.toNat heq)

/-- A digit character is not `#`, not `"`, not `-`, not `.`, and not
whitespace. -/
theorem digit_head_facts (c : Char) (h : c.isDigit = true) :
    c ≠ '#' ∧ c ≠ '"' ∧ c ≠ '-' ∧ c ≠ '.' ∧ rustWhitespace c = false := by
  have hn := isDigit_toNat h
  have h35 : ('#' : Char).toNat = 35 := by decide
  have h34 : ('"' : Char).toNat = 34 := by decide
  have h45 : ('-' : Char).toNat = 45 := by decide
  have h46 : ('.' : Char).toNat = 46 := by decide
  refine ⟨char_ne_of_toNat_ne (by omega), char_ne_of_toNat_ne (by omega),
    char_ne_of_toNat_ne (by omega), char_ne_of_toNat_ne (by omega), ?_⟩
  · cases hb : rustWhitespace c with
    | false => rfl
    | true =>
      exfalso
      simp only [rustWhitespace, Bool.or_eq_true, Bool.and_eq_true,
        decide_eq_true_eq] at hb
      omega

/-- `str::trim` is the identity on entirely non-whitespace text. -/
theorem trimChars_eq_self_all (l : List Char)
    (h : ∀ c ∈ l, rustWhitespace c = false) : trimChars l = l :=
  trimChars_eq_self l (fun c hc => h c (List.mem_of_mem_head? hc))
    (fun c hc => h c (List.mem_of_mem_getLast? hc))

/-- The head of a valid token is a digit. -/
theorem intTok_head_digit (ds : List Char) (h : IntTok ds) :
    ∀ c, ds.head? = some c → c.isDigit = true := by
  intro c hc
  rcases h with h | ⟨hne, hdig, _⟩
  · subst h
    injection hc with hc
    rw [← hc]
    decide
  · exact hdig c (List.mem_of_mem_head? hc)

/-- Every character of a valid token is a digit. -/
theorem intTok_all_digit (ds : List Char) (h : IntTok ds) :
    ∀ c ∈ ds, c.isDigit = true := by
  intro c hc
  rcases h with h | ⟨_, hdig, _⟩
  · subst h
    simp only [List.mem_singleton] at hc
    rw [hc]
    decide
  · exact hdig c hc

/-- A valid token is nonempty. -/
theorem intTok_ne_nil (ds : List Char) (h : IntTok ds) : ds ≠ [] := by
  rcases h with h | ⟨hne, _, _⟩
  · subst h
    simp
  · exact hne

/-- `parseInt10` consumes a full-input token. -/
theorem parseInt10_token_nil (ds : List Char) (htok : IntTok ds) :
    parseInt10 ds = some (ds, []) := by
  have h := parseInt10_token ds [] htok (by intro c hc; simp at hc)
  simpa using h

/-- `parseNumber` after a leading minus, unfolded. -/
theorem parseNumber_dash (s : List Char) :
    parseNumber ('-' :: s)
      = match parseInt10 s with
        | some (ipr, r1) =>
          match r1 with
          | '.' :: r2 =>
            match parseInt10 r2 with
            | some (fpr, r3) => some (.number (literalValue true ipr fpr), r3)
            | none => some (.number (literalValue true ipr []), r2)
          | _ => some (.number (literalValue true ipr []), r1)
        | none =>
          match s with
          | '.' :: r2 =>
            match parseInt10 r2 with
            | some (fpr, r3) => some (.number (literalValue true [] fpr), r3)
            | none => none
          | _ => none := rfl

/-- `parseNumber` on digit-headed text, unfolded. -/
theorem parseNumber_digit (c : Char) (t : List Char) (hne : c ≠ '-') :
    parseNumber (c :: t)
      = match parseInt10 (c :: t) with
        | some (ipr, r1) =>
          match r1 with
          | '.' :: r2 =>
            match parseInt10 r2 with
            | some (fpr, r3) => some (.number (literalValue false ipr fpr), r3)
            | none => some (.number (literalValue false ipr []), r2)
          | _ => some (.number (literalValue false ipr []), r1)
        | none =>
          match c :: t with
          | '.' :: r2 =>
            match parseInt10 r2 with
            | some (fpr, r3) => some (.number (literalValue false [] fpr), r3)
            | none => none
          | _ => none := by
  rw [parseNumber.eq_def]
  split
  · next rest heq =>
    injection heq with h1 h2
    exact absurd h1 hne
  · dsimp only

/-- `parseNumber` on a rendered integer literal: optional minus and an
integer token. -/
theorem parseNumber_eval_int (sgn : Bool) (ip : List Char) (hip : IntTok ip) :
    parseNumber ((if sgn then ['-'] else []) ++ ip)
      = some (.number (literalValue sgn ip []), []) := by
  have htok := parseInt10_token_nil ip hip
  cases sgn with
  | true =>
    rw [show ((if (true : Bool) then ['-'] else []) ++ ip) = '-' :: ip by simp]
    rw [parseNumber_dash, htok]
  | false =>
    rw [show ((if (false : Bool) then ['-'] else []) ++ ip) = ip by simp]
    cases hh : ip with
    | nil => exact absurd hh (intTok_ne_nil ip hip)
    | cons c t =>
      have hdig : c.isDigit = true :=
        intTok_head_digit ip hip c (by rw [hh]; rfl)
      have hne : c ≠ '-' := (digit_head_facts c hdig).2.2.1
      rw [parseNumber_digit c t hne, ← hh, htok]

/-- `parseNumber` on a rendered decimal literal: optional minus, integer
token, dot, fraction token. -/
theorem parseNumber_eval_frac (sgn : Bool) (ip fp : List Char)
    (hip : IntTok ip) (hfp : IntTok fp) :
    parseNumber ((if sgn then ['-'] else []) ++ ip ++ '.' :: fp)
      = some (.number (literalValue sgn ip fp), []) := by
  have htok : parseInt10 (ip ++ '.' :: fp) = some (ip, '.' :: fp) :=
    parseInt10_token ip ('.' :: fp) hip
      (by
        intro c hc
        injection hc with hc
        rw [← hc]
        decide)
  have htok2 := parseInt10_token_nil fp hfp
  cases sgn with
  | true =>
    rw [show ((if (true : Bool) then ['-'] else []) ++ ip ++ '.' :: fp)
        = '-' :: (ip ++ '.' :: fp) by simp]
    rw [parseNumber_dash, htok]
    show (match parseInt10 fp with
      | some (fpr, r3) => some (Value.number (literalValue true ip fpr), r3)
      | none => some (Value.number (literalValue true ip []), fp))
      = some (Value.number (literalValue true ip fp), [])
    rw [htok2]
  | false =>
    rw [show ((if (false : Bool) then ['-'] else []) ++ ip ++ '.' :: fp)
        = ip ++ '.' :: fp by simp]
    cases hh : ip with
    | nil => exact absurd hh (intTok_ne_nil ip hip)
    | cons c t =>
      have hdig : c.isDigit = true :=
        intTok_head_digit ip hip c (by rw [hh]; rfl)
      have hne : c ≠ '-' := (digit_head_facts c hdig).2.2.1
      rw [hh] at htok
      rw [List.cons_append, parseNumber_digit c (t ++ '.' :: fp) hne,
        ← List.cons_append, htok]
      show (match parseInt10 fp with
        | some (fpr, r3) => some (Value.number (literalValue false (c :: t) fpr), r3)
        | none => some (Value.number (literalValue false (c :: t) []), fp))
        = some (Value.number (literalValue false (c :: t) fp), [])
      rw [htok2]

/-- `parseOne` on a rendered numeric literal. -/
theorem parseOne_number (sgn : Bool) (ip fp : List Char) (hip : IntTok ip)
    (hfp : IntTok fp ∨ fp = []) :
    parseOne (String.mk ((if sgn then ['-'] else []) ++ ip
        ++ (if fp = [] then [] else '.' :: fp)))
      = some (.number (literalValue sgn ip fp)) := by
  have hnum : parseNumber ((if sgn then ['-'] else []) ++ ip
      ++ (if fp = [] then [] else '.' :: fp))
      = some (.number (literalValue sgn ip fp), []) := by
    by_cases hfp0 : fp = []
    · subst hfp0
      simpa using parseNumber_eval_int sgn ip hip
    · rw [if_neg hfp0]
      rcases hfp with hfp | h
      · exact parseNumber_eval_frac sgn ip fp hip hfp
      · exact absurd h hfp0
  have hws : ∀ c ∈ (if sgn then ['-'] else []) ++ ip
      ++ (if fp = [] then [] else '.' :: fp), rustWhitespace c = false := by
    intro c hc
    rcases List.mem_append.mp hc with hc | hc
    · rcases List.mem_append.mp hc with hc | hc
      · cases sgn with
        | true =>
          simp only [if_pos rfl, List.mem_singleton] at hc
          simp at hc
          rw [hc]
          decide
        | false => simp at hc
      · exact (digit_head_facts c (intTok_all_digit ip hip c hc)).2.2.2.2
    · by_cases hfp0 : fp = []
      · rw [if_pos hfp0] at hc
        simp at hc
      · rw [if_neg hfp0] at hc
        rcases List.mem_cons.mp hc with hc | hc
        · rw [hc]
          decide
        · rcases hfp with hfp | h
          · exact (digit_head_facts c (intTok_all_digit fp hfp c hc)).2.2.2.2
          · exact absurd h hfp0
  simp only [parseOne]
  rw [trimChars_eq_self_all _ hws]
  obtain ⟨c, t, hct⟩ : ∃ c t, (if sgn then ['-'] else []) ++ ip
      ++ (if fp = [] then [] else '.' :: fp) = c :: t ∧
        (c = '-' ∨ c.isDigit = true) := by
    cases sgn with
    | true =>
      refine ⟨'-', ip ++ (if fp = [] then [] else '.' :: fp), ?_, Or.inl rfl⟩
      simp
    | false =>
      cases hh : ip with
      | nil => exact absurd hh (intTok_ne_nil ip hip)
      | cons c t =>
        refine ⟨c, t ++ (if fp = [] then [] else '.' :: fp), ?_,
          Or.inr (intTok_head_digit ip hip c (by rw [hh]; rfl))⟩
        simp
  have hhash : c ≠ '#' := by
    rcases hct.2 with h | h
    · rw [h]; decide
    · exact (digit_head_facts c h).1
  rw [hct.1]
  rw [show 3 * (c :: t).length + 3 = (3 * (c :: t).length + 2) + 1 from rfl,
    parseExpr_step]
  rw [parseBoolean_none c t hhash, parseCharacter_none c t hhash]
  rw [← hct.1, hnum]

/-- The shape of `displayQ` on a signed normalized fraction. -/
theorem displayQ_shape (sgn : Bool) (n' den : Nat) (hn' : 1 ≤ n') :
    displayQ ⟨if sgn then -(n' : Int) else (n' : Int), den⟩
      = (if sgn then ['-'] else [])
        ++ insertPoint (natDigits (n' * 10 ^ findPow10Exp den 0 den / den))
          (findPow10Exp den 0 den) := by
  cases sgn with
  | true =>
    simp only [eq_self_iff_true, if_true]
    unfold displayQ
    have h1 : ((⟨-(n' : Int), den⟩ : Q).num < 0) := by
      simp only []
      omega
    rw [if_pos h1]
    simp [Int.natAbs_neg]
  | false =>
    simp only [Bool.false_eq_true, if_false]
    unfold displayQ
    have h1 : ¬ ((⟨(n' : Int), den⟩ : Q).num < 0) := by
      simp only []
      omega
    rw [if_neg h1]
    simp

/-- Display followed by reparse is the identity on a signed normalized
fraction whose denominator divides a power of ten and whose minimal-power
rendering has no leading zero in its fraction digits. -/
theorem displayQ_roundtrip (sgn : Bool) (n' den : Nat) (hn' : 1 ≤ n')
    (hden : 1 ≤ den) (hcop : Nat.gcd n' den = 1) (L : Nat)
    (hdvd : den ∣ 10 ^ L)
    (hfrac : ∀ kk, 1 ≤ kk → den ∣ 10 ^ kk → (∀ j < kk, ¬ den ∣ 10 ^ j) →
      10 ^ (kk - 1) ≤ (n' * 10 ^ kk / den) % 10 ^ kk) :
    parseOne (String.mk
        (displayF64 (.fin ⟨if sgn then -(n' : Int) else (n' : Int), den⟩)))
      = some (.number (.fin ⟨if sgn then -(n' : Int) else (n' : Int), den⟩)) := by
  classical
  have hdf : displayF64 (.fin ⟨if sgn then -(n' : Int) else (n' : Int), den⟩)
      = displayQ ⟨if sgn then -(n' : Int) else (n' : Int), den⟩ := rfl
  -- the minimal exponent and the properties of the search
  have hP : ∃ e, den ∣ 10 ^ e := ⟨L, hdvd⟩
  have he := Nat.find_spec hP
  have hemin : ∀ j < Nat.find hP, ¬ den ∣ 10 ^ j := fun j hj => Nat.find_min hP hj
  have hebound : Nat.find hP < den :=
    lt_of_lt_of_le (Nat.lt_two_pow _) (two_pow_minExp_le den (Nat.find hP) hden he hemin)
  have hspec := findPow10Exp_spec den den 0
    ⟨Nat.find hP, by omega, by omega,
      (Nat.dvd_iff_mod_eq_zero).mp he⟩
  set k := findPow10Exp den 0 den with hkdef
  have hk1 : den ∣ 10 ^ k := (Nat.dvd_iff_mod_eq_zero).mpr hspec.1
  have hkmin : ∀ i < k, ¬ den ∣ 10 ^ i :=
    fun i hi hdvd' => hspec.2.2 i (by omega) hi
      ((Nat.dvd_iff_mod_eq_zero).mp hdvd')
  have hkL : k ≤ L := by
    by_contra hgt
    exact hkmin L (by omega) hdvd
  -- the cofactor and the rendered numerator
  have hc : den * (10 ^ k / den) = 10 ^ k := Nat.mul_div_cancel' hk1
  set c := 10 ^ k / den with hcdef
  have hcpos : 1 ≤ c := by
    rcases Nat.eq_zero_or_pos c with h0 | h
    · rw [h0, Nat.mul_zero] at hc
      have : 0 < (10 : Nat) ^ k := Nat.pos_pow_of_pos k (by omega)
      omega
    · exact h
  have hm : n' * 10 ^ k / den = n' * c := by
    rw [← hc, Nat.mul_comm den c, ← Nat.mul_assoc,
      Nat.mul_div_cancel _ (by omega : 0 < den)]
  set m := n' * 10 ^ k / den with hmdef
  have hmc : m = n' * c := hm
  have hmpos : 1 ≤ m := by
    rw [hmc]
    exact Nat.mul_le_mul hn' hcpos
  have hpow10k : m * den = n' * 10 ^ k := by
    rw [hmc, ← hc]
    ring
  rw [hdf, displayQ_shape sgn n' den hn', ← hkdef, ← hmdef]
  rcases Nat.eq_zero_or_pos k with hk0 | hkpos
  · -- integer rendering
    have hden1 : den = 1 := by
      rw [hk0] at hk1
      simpa using hk1
    have hmn : m = n' := by
      rw [hmdef, hk0, hden1]
      simp
    rw [hk0]
    rw [show insertPoint (natDigits m) 0 = natDigits m by simp [insertPoint]]
    have hp := parseOne_number sgn (natDigits m) [] (natDigits_intTok m)
      (Or.inr rfl)
    simp only [eq_self_iff_true, if_true, List.append_nil] at hp
    rw [show ((if sgn then ['-'] else []) ++ natDigits m)
        = ((if sgn then ['-'] else []) ++ natDigits m) from rfl]
    rw [hp]
    congr 1
    congr 1
    unfold literalValue
    simp only [List.length_nil, pow_zero, Nat.mul_one, digitsToNat_nil,
      Nat.add_zero, digitsToNat_natDigits]
    cases sgn with
    | true =>
      simp only [eq_self_iff_true, if_true]
      rw [if_neg (by omega : ¬ m = 0)]
      rw [mkRat_negOfNat m 1 (by omega), Nat.gcd_one_right, Nat.div_one,
        Nat.div_one, hmn, hden1]
    | false =>
      simp only [Bool.false_eq_true, if_false]
      rw [mkRat_ofNat m 1 (by omega), Nat.gcd_one_right, Nat.div_one,
        Nat.div_one, hmn, hden1]
  · -- fractional rendering
    have hmk := hfrac k hkpos hk1 hkmin
    rw [← hmdef] at hmk
    have hpowpos : 0 < (10 : Nat) ^ k := Nat.pos_pow_of_pos k (by omega)
    rcases Nat.lt_or_ge m (10 ^ k) with hmlt | hmge
    · -- value below one: 0.digits
      have hmm : m % 10 ^ k = m := Nat.mod_eq_of_lt hmlt
      rw [hmm] at hmk
      have hlen : (natDigits m).length = k :=
        natDigits_length_eq m k hmk hmlt hkpos
      have hins : insertPoint (natDigits m) k
          = '0' :: '.' :: natDigits m := by
        unfold insertPoint
        rw [if_neg (by omega : ¬ k = 0), if_pos (by omega : (natDigits m).length ≤ k),
          hlen, Nat.sub_self]
        simp
      rw [hins]
      have hp := parseOne_number sgn ['0'] (natDigits m)
        (Or.inl rfl) (Or.inl (natDigits_intTok m))
      rw [if_neg (natDigits_ne_nil m)] at hp
      rw [show ((if sgn then ['-'] else []) ++ ('0' :: '.' :: natDigits m))
          = ((if sgn then ['-'] else []) ++ ['0'] ++ '.' :: natDigits m) by simp]
      rw [hp]
      congr 1
      congr 1
      unfold literalValue
      have hz : digitsToNat ['0'] = 0 := by decide
      simp only [hz, Nat.zero_mul, Nat.zero_add, digitsToNat_natDigits, hlen]
      cases sgn with
      | true =>
        simp only [eq_self_iff_true, if_true]
        rw [if_neg (by omega : ¬ m = 0)]
        rw [show (10 : Nat) ^ k = den * c from hc.symm, hmc,
          mkRat_cancel_neg n' den c (by omega) (by omega) hcop]
      | false =>
        simp only [Bool.false_eq_true, if_false]
        rw [show (10 : Nat) ^ k = den * c from hc.symm, hmc,
          mkRat_cancel_pos n' den c (by omega) (by omega) hcop]
    · -- value at least one: hi.lo
      have hapos : 1 ≤ m / 10 ^ k := (Nat.one_le_div_iff hpowpos).mpr hmge
      have hrlt : m % 10 ^ k < 10 ^ k := Nat.mod_lt m hpowpos
      have hsplitm : m / 10 ^ k * 10 ^ k + m % 10 ^ k = m := by
        rw [Nat.mul_comm]
        exact Nat.div_add_mod m (10 ^ k)
      have hsplit := natDigits_split k hkpos (m / 10 ^ k) (m % 10 ^ k)
        hapos hmk hrlt
      rw [hsplitm] at hsplit
      have hlolen : (natDigits (m % 10 ^ k)).length = k :=
        natDigits_length_eq (m % 10 ^ k) k hmk hrlt hkpos
      have hins : insertPoint (natDigits m) k
          = natDigits (m / 10 ^ k) ++ '.' :: natDigits (m % 10 ^ k) := by
        unfold insertPoint
        rw [if_neg (by omega : ¬ k = 0)]
        rw [hsplit, List.length_append, hlolen]
        have hhilen : 1 ≤ (natDigits (m / 10 ^ k)).length :=
          List.length_pos.mpr (natDigits_ne_nil _)
        rw [if_neg (by omega :
          ¬ (natDigits (m / 10 ^ k)).length + k ≤ k)]
        rw [Nat.add_sub_cancel, List.take_left, List.drop_left]
      rw [hins]
      have hp := parseOne_number sgn (natDigits (m / 10 ^ k))
        (natDigits (m % 10 ^ k)) (natDigits_intTok _)
        (Or.inl (natDigits_intTok _))
      rw [if_neg (natDigits_ne_nil _)] at hp
      rw [show ((if sgn then ['-'] else [])
            ++ (natDigits (m / 10 ^ k) ++ '.' :: natDigits (m % 10 ^ k)))
          = ((if sgn then ['-'] else []) ++ natDigits (m / 10 ^ k)
            ++ '.' :: natDigits (m % 10 ^ k)) by simp]
      rw [hp]
      congr 1
      congr 1
      unfold literalValue
      simp only [digitsToNat_natDigits, hlolen, hsplitm]
      cases sgn with
      | true =>
        simp only [eq_self_iff_true, if_true]
        rw [if_neg (by omega : ¬ m = 0)]
        rw [show (10 : Nat) ^ k = den * c from hc.symm, hmc,
          mkRat_cancel_neg n' den c (by omega) (by omega) hcop]
      | false =>
        simp only [Bool.false_eq_true, if_false]
        rw [show (10 : Nat) ^ k = den * c from hc.symm, hmc,
          mkRat_cancel_pos n' den c (by omega) (by omega) hcop]

/-- Round trip for every value a numeric literal can parse to: rendering
with `Display` and reparsing recovers the same `f64` value. -/
theorem number_roundtrip_aux (sgn : Bool) (ip fp : List Char)
    (hip : IntTok ip ∨ ip = []) (hfp : IntTok fp ∨ fp = [])
    (hone : ¬ (ip = [] ∧ fp = [])) :
    parseOne (String.mk (displayValue (.number (literalValue sgn ip fp))))
      = some (.number (literalValue sgn ip fp)) := by
  classical
  have hLpos : 0 < (10 : Nat) ^ fp.length := Nat.pos_pow_of_pos _ (by omega)
  by_cases hN : digitsToNat ip * 10 ^ fp.length + digitsToNat fp = 0
  · cases sgn with
    | true =>
      have hlit : literalValue true ip fp = .negZero := by
        unfold literalValue
        simp only [eq_self_iff_true, if_true]
        rw [if_pos hN]
      rw [hlit]
      rfl
    | false =>
      have hlit : literalValue false ip fp = .fin ⟨0, 1⟩ := by
        unfold literalValue
        simp only [Bool.false_eq_true, if_false]
        rw [hN]
        exact congrArg F64.fin (by
          rw [show ((0 : Nat) : Int) = 0 from rfl, mkRat_zero _ (by omega)])
      rw [hlit]
      rfl
  · -- a nonzero literal value
    set N := digitsToNat ip * 10 ^ fp.length + digitsToNat fp with hNdef
    set g := Nat.gcd N (10 ^ fp.length) with hgdef
    have hgpos : 0 < g := Nat.gcd_pos_of_pos_right N hLpos
    have hgN : g ∣ N := Nat.gcd_dvd_left _ _
    have hgP : g ∣ 10 ^ fp.length := Nat.gcd_dvd_right _ _
    set n' := N / g with hn'def
    set den := 10 ^ fp.length / g with hdendef
    have hn' : 1 ≤ n' :=
      Nat.div_pos (Nat.le_of_dvd (by omega) hgN) hgpos
    have hden : 1 ≤ den := Nat.div_pos (Nat.le_of_dvd hLpos hgP) hgpos
    have hcop : Nat.gcd n' den = 1 := Nat.coprime_div_gcd_div_gcd hgpos
    have hdeng : den * g = 10 ^ fp.length := Nat.div_mul_cancel hgP
    have hn'g : n' * g = N := Nat.div_mul_cancel hgN
    have hdvd : den ∣ 10 ^ fp.length := ⟨g, hdeng.symm⟩
    have hlit : literalValue sgn ip fp
        = .fin ⟨if sgn then -(n' : Int) else (n' : Int), den⟩ := by
      unfold literalValue
      rw [← hNdef]
      cases sgn with
      | true =>
        simp only [eq_self_iff_true, if_true]
        rw [if_neg hN, mkRat_negOfNat N _ (by omega), ← hgdef, ← hn'def,
          ← hdendef]
      | false =>
        simp only [Bool.false_eq_true, if_false]
        rw [mkRat_ofNat N _ (by omega), ← hgdef, ← hn'def, ← hdendef]
    have hfrac : ∀ kk, 1 ≤ kk → den ∣ 10 ^ kk →
        (∀ j < kk, ¬ den ∣ 10 ^ j) →
        10 ^ (kk - 1) ≤ (n' * 10 ^ kk / den) % 10 ^ kk := by
      intro kk hkk1 hkkdvd hkkmin
      have hkkL : kk ≤ fp.length := by
        by_contra hgt
        exact hkkmin fp.length (by omega) hdvd
      have hc : den * (10 ^ kk / den) = 10 ^ kk := Nat.mul_div_cancel' hkkdvd
      set c := 10 ^ kk / den with hcdef
      have hcpos : 1 ≤ c := by
        rcases Nat.eq_zero_or_pos c with h0 | h
        · rw [h0, Nat.mul_zero] at hc
          have : 0 < (10 : Nat) ^ kk := Nat.pos_pow_of_pos _ (by omega)
          omega
        · exact h
      have hm : n' * 10 ^ kk / den = n' * c := by
        rw [← hc, Nat.mul_comm den c, ← Nat.mul_assoc,
          Nat.mul_div_cancel _ (by omega : 0 < den)]
      rw [hm]
      -- the cofactor toward the full denominator
      have hcg : c * 10 ^ (fp.length - kk) = g := by
        have h1 : den * (c * 10 ^ (fp.length - kk)) = den * g := by
          rw [← Nat.mul_assoc, hc, hdeng, ← pow_add]
          congr 1
          omega
        exact Nat.eq_of_mul_eq_mul_left (by omega) h1
      have hNm : n' * c * 10 ^ (fp.length - kk) = N := by
        rw [Nat.mul_assoc, hcg, hn'g]
      -- the fraction digits are the low digits of the rendered numerator
      rcases hfp with hfptok | hfpnil
      · have hfplt : digitsToNat fp < 10 ^ fp.length :=
          digitsToNat_lt fp (intTok_all_digit fp hfptok)
        have hmodN : N % 10 ^ fp.length = digitsToNat fp := by
          rw [hNdef, Nat.add_comm, Nat.add_mul_mod_self_right,
            Nat.mod_eq_of_lt hfplt]
        have hmodsplit : N % 10 ^ fp.length
            = (n' * c % 10 ^ kk) * 10 ^ (fp.length - kk) := by
          rw [← hNm, show (10 : Nat) ^ fp.length
              = 10 ^ kk * 10 ^ (fp.length - kk) by
            rw [← pow_add]; congr 1; omega]
          exact Nat.mul_mod_mul_right _ _ _
        have hfpval : (n' * c % 10 ^ kk) * 10 ^ (fp.length - kk)
            = digitsToNat fp := by rw [← hmodsplit, hmodN]
        rcases hfptok with hfp0 | ⟨hfpne, hfpdig, hfphd⟩
        · -- fraction text `0` forces an integral value, impossible here
          exfalso
          have hz : digitsToNat fp = 0 := by rw [hfp0]; decide
          rw [hz] at hfpval
          have hppos : 0 < (10 : Nat) ^ (fp.length - kk) :=
            Nat.pos_pow_of_pos _ (by omega)
          have hmod0 : n' * c % 10 ^ kk = 0 := by
            rcases Nat.mul_eq_zero.mp hfpval with h | h
            · exact h
            · exact absurd h (by omega)
          have hdvdm : 10 ^ kk ∣ n' * c :=
            (Nat.dvd_iff_mod_eq_zero).mpr hmod0
          rw [← hc] at hdvdm
          have hdn' : den ∣ n' :=
            (Nat.mul_dvd_mul_iff_right (show 0 < c by omega)).mp hdvdm
          have hd1 : den = 1 :=
            Nat.dvd_one.mp (hcop ▸ Nat.dvd_gcd hdn' (dvd_refl den))
          exact hkkmin 0 (by omega) (by simp [hd1])
        · -- a genuine fraction token starts with a nonzero digit
          cases hfpeq : fp with
          | nil => exact absurd hfpeq hfpne
          | cons d t =>
            have hd : d.isDigit = true := hfpdig d (by rw [hfpeq]; exact List.mem_cons_self d t)
            have hdne : d ≠ '0' := by
              intro h
              apply hfphd
              rw [hfpeq, h]
              rfl
            have hge : 10 ^ t.length ≤ digitsToNat fp := by
              rw [hfpeq]
              exact digitsToNat_ge d t hd hdne
            have hlen : fp.length = t.length + 1 := by rw [hfpeq]; rfl
            have hsplitpow : (10 : Nat) ^ (fp.length - 1)
                = 10 ^ (kk - 1) * 10 ^ (fp.length - kk) := by
              rw [← pow_add]
              congr 1
              omega
            have hge' : 10 ^ (kk - 1) * 10 ^ (fp.length - kk)
                ≤ (n' * c % 10 ^ kk) * 10 ^ (fp.length - kk) := by
              rw [← hsplitpow, hfpval]
              calc 10 ^ (fp.length - 1) = 10 ^ t.length := by rw [hlen]; rfl
                _ ≤ digitsToNat fp := hge
            exact Nat.le_of_mul_le_mul_right hge'
              (Nat.pos_pow_of_pos _ (by omega))
      · -- no fraction text at all: the length is zero, excluded
        exfalso
        rw [hfpnil] at hkkL
        simp at hkkL
        omega
    rw [hlit]
    have hdisp : displayValue
        (.number (.fin ⟨if sgn then -(n' : Int) else (n' : Int), den⟩))
        = displayF64 (.fin ⟨if sgn then -(n' : Int) else (n' : Int), den⟩) :=
      rfl
    rw [hdisp]
    exact displayQ_roundtrip sgn n' den hn' hden hcop fp.length hdvd hfrac

/-- C3: amended round trip over the literal atom classes. -/
theorem display_read_roundtrip_atoms :
    (∀ b : Bool, parseOne (String.mk (displayValue (.boolean b)))
        = some (.boolean b))
    ∧ (∀ l : List Char, (∀ c ∈ l, stringPlainChar c = true) →
        parseOne (String.mk (displayValue (.string (String.mk l))))
          = some (.string (String.mk l)))
    ∧ (∀ c : Char, rustWhitespace c = false →
        parseOne (String.mk (displayValue (.character c)))
          = some (.character c))
    ∧ (∀ l : List Char, l ≠ [] → (∀ c ∈ l, symbolChar c = true) →
        (∀ c ∈ l, rustWhitespace c = false) → parseNumber l = none →
        parseOne (String.mk (displayValue (.symbol (String.mk l))))
          = some (.symbol (String.mk l)))
    ∧ (∀ l : List Char, l ≠ [] → (∀ c ∈ l, barSymbolChar c = true) →
        l.any rustWhitespace = true →
        parseOne (String.mk (displayValue (.symbol (String.mk l))))
          = some (.symbol (String.mk l)))
    ∧ (∀ (sgn : Bool) (ip fp : List Char), (IntTok ip ∨ ip = []) →
        (IntTok fp ∨ fp = []) → ¬ (ip = [] ∧ fp = []) →
        parseOne (String.mk (displayValue (.number (literalValue sgn ip fp))))
          = some (.number (literalValue sgn ip fp))) :=
  ⟨boolean_roundtrip_aux, string_roundtrip_aux, character_roundtrip_aux,
    symbol_bare_roundtrip_aux, symbol_bar_roundtrip_aux, number_roundtrip_aux⟩

/-- C3 witness: the round trip at concrete members of each class. -/
theorem display_read_roundtrip_atoms_witness :
    parseOne (String.mk (displayValue (.boolean true))) = some (.boolean true)
    ∧ parseOne (String.mk (displayValue (.string "a b")))
        = some (.string "a b")
    ∧ parseOne (String.mk (displayValue (.character 'x')))
        = some (.character 'x')
    ∧ parseOne (String.mk (displayValue (.symbol "a+b")))
        = some (.symbol "a+b")
    ∧ parseOne (String.mk (displayValue (.symbol "a b")))
        = some (.symbol "a b")
    ∧ parseOne (String.mk (displayValue
          (.number (literalValue true ['1', '2'] ['2', '5']))))
        = some (.number (literalValue true ['1', '2'] ['2', '5'])) :=
  ⟨display_read_roundtrip_atoms.1 true,
   display_read_roundtrip_atoms.2.1 ['a', ' ', 'b'] (by decide),
   display_read_roundtrip_atoms.2.2.1 'x' (by decide),
   display_read_roundtrip_atoms.2.2.2.1 ['a', '+', 'b'] (by decide)
     (by decide) (by decide) rfl,
   display_read_roundtrip_atoms.2.2.2.2.1 ['a', ' ', 'b'] (by decide)
     (by decide) (by decide),
   display_read_roundtrip_atoms.2.2.2.2.2 true ['1', '2'] ['2', '5']
     (Or.inl (by right; refine ⟨by decide, by decide, by decide⟩))
     (Or.inl (by right; refine ⟨by decide, by decide, by decide⟩))
     (by decide)⟩

/-- C3 counterexample: the claim as written fails on strings with escapes
and on the character names: display emits string contents verbatim and
characters as `#\c`, which do not reparse. -/
theorem display_read_verbatim_counterexample :
    parseOne "\"\\\"\"" = some (.string "\"")
    ∧ parseOne (String.mk (displayValue (.string "\""))) = none
    ∧ parseOne "#\\space" = some (.character ' ')
    ∧ parseOne (String.mk (displayValue (.character ' '))) = none :=
  ⟨rfl, rfl, rfl, rfl⟩
